import Mathlib

/-!
Verification of the porytiles tileset compiler core.

The definitions below are a shallow embedding of the C++ sources:
`src/src/cli_parser.cpp` (which also contains the compiler translation unit:
`insertRGBA`, `candidate`, `normalize`, `buildColorIndexMaps`, `assign`,
`makeTile`, `assignTilesPrimary`, `assignTilesSecondary`, `compile`) and
`src/src/importer.cpp` (`getLayerBitset`, `layerBitsetToLayerType`,
`importLayeredTilesFromPngs`).

The shared type header (`types.h`) is not part of the sources; the small
data-model helpers it provides (pixel layout of tiles, `transparent()`
predicates, the all-zero transparent `GBATile`, `GBAPalette` as sixteen
BGR15 slots) are modelled from the specification, and each such definition
carries a doc comment saying so.

C++ exceptions are modelled with `Except String`; machine integers are
modelled with `Nat` (none of the embedded arithmetic overflows: color
channels are below 256, indices are small).
-/

namespace Porytiles

/-- Alpha value denoting a fully transparent pixel. -/
def ALPHA_TRANSPARENT : Nat := 0

/-- Alpha value denoting a fully opaque pixel. -/
def ALPHA_OPAQUE : Nat := 255

/-- Number of color slots in a hardware palette. -/
def PAL_SIZE : Nat := 16

/-- Side length in pixels of one tile. -/
def TILE_SIDE_LENGTH : Nat := 8

/-- Number of pixels in one tile. -/
def TILE_NUM_PIX : Nat := 64

/-- 32-bit RGBA color: four 8-bit channels. -/
structure RGBA32 where
  red : Nat
  green : Nat
  blue : Nat
  alpha : Nat
deriving DecidableEq, Repr

/-- 15-bit packed GBA hardware color. -/
structure BGR15 where
  bgr : Nat
deriving DecidableEq, Repr

/-- Modelled from the spec: `rgbaToBgr` lives in the missing `types.h`; §3 of
the spec (and `rgbaToBGR` in the in-tree `1.0.0/src/types.cpp`) define it as
dropping the low three bits of each channel and packing blue‖green‖red. -/
def rgbaToBgr (rgba : RGBA32) : BGR15 :=
  ⟨((rgba.blue / 8) <<< 10) ||| ((rgba.green / 8) <<< 5) ||| (rgba.red / 8)⟩

/-- An 8×8 tile of RGBA pixels, stored row-major as a flat list of 64. -/
structure RGBATile where
  pixels : List RGBA32
deriving DecidableEq, Repr

/-- Modelled from the spec: `RGBATile::getPixel` lives in the missing
`types.h`; the pixel at (row, col) of the row-major 8×8 buffer. -/
def RGBATile.getPixel (t : RGBATile) (row col : Nat) : RGBA32 :=
  t.pixels.getD (row * TILE_SIDE_LENGTH + col) ⟨0, 0, 0, 0⟩

/-- Modelled from the spec: `RGBATile::transparent(transparencyColor)` lives
in the missing `types.h`; a tile is transparent when every pixel either has
transparent alpha or equals the configured transparency color (§4.1 treats a
subtile as having content exactly when this fails). -/
def RGBATile.transparent (t : RGBATile) (transparencyColor : RGBA32) : Bool :=
  t.pixels.all (fun p => p = transparencyColor || p.alpha = ALPHA_TRANSPARENT)

/-- A per-tile normalized palette. The C++ type is a fixed array of
`PAL_SIZE` colors together with an occupancy counter `size`; we embed it as
the list of the occupied slots, so `colors.length` plays the role of `size`.
Slot 0 holds the transparency color. -/
structure NormalizedPalette where
  colors : List BGR15
deriving DecidableEq, Repr

/-- A normalized tile: 64 row-major palette indexes, the per-tile palette,
and the flips that produced this candidate. -/
structure NormalizedTile where
  pixels : List Nat
  palette : NormalizedPalette
  hFlip : Bool
  vFlip : Bool
deriving DecidableEq, Repr

/-- Modelled from the spec: the `NormalizedTile{transparencyColor}`
constructor lives in the missing `types.h`; it starts the palette with the
transparency color in slot 0 (§3 invariant). -/
def initNormalizedPalette (transparencyColor : RGBA32) : NormalizedPalette :=
  ⟨[rgbaToBgr transparencyColor]⟩

/-- Modelled from the spec: `NormalizedTile::transparent()` lives in the
missing `types.h`; a normalized tile is transparent when its whole pixel
buffer is index 0 (§4.2 step 2: all-transparent pixel buffer). -/
def NormalizedTile.transparent (t : NormalizedTile) : Bool :=
  t.pixels.all (fun i => i = 0)

/-- `insertRGBA` from cli_parser.cpp lines 679-711: insert a color into a
normalized palette, returning the updated palette and the slot index.
Transparent pixels map to slot 0; opaque pixels are looked up in slots
[1, size) and appended when new; any other alpha is an error. -/
def insertRGBA (transparencyColor : RGBA32) (palette : NormalizedPalette)
    (rgba : RGBA32) : Except String (NormalizedPalette × Nat) :=
  if rgba.alpha = ALPHA_TRANSPARENT ∨ rgba = transparencyColor then
    Except.ok (palette, 0)
  else if rgba.alpha = ALPHA_OPAQUE then
    let bgr := rgbaToBgr rgba
    match (palette.colors.drop 1).findIdx? (fun c => c = bgr) with
    | some j => Except.ok (palette, j + 1)
    | none =>
      if palette.colors.length = PAL_SIZE then
        Except.error "too many unique colors in tile"
      else
        Except.ok (⟨palette.colors ++ [bgr]⟩, palette.colors.length)
  else
    Except.error ("invalid alpha value: " ++ toString rgba.alpha)

/-- The row-major sequence of source pixels read by `candidate` for the
given flips: column indices are reversed when hFlipped, row indices when
vFlipped (cli_parser.cpp lines 724-731). -/
def candidatePixels (rgba : RGBATile) (hFlip vFlip : Bool) : List RGBA32 :=
  (List.range TILE_NUM_PIX).map (fun i =>
    let row := i / TILE_SIDE_LENGTH
    let col := i % TILE_SIDE_LENGTH
    let rowWithFlip := if vFlip then TILE_SIDE_LENGTH - 1 - row else row
    let colWithFlip := if hFlip then TILE_SIDE_LENGTH - 1 - col else col
    rgba.getPixel rowWithFlip colWithFlip)

/-- The iteration of the double loop of `candidate`, with an explicit
starting accumulator (palette so far, index buffer so far). -/
def insertFold (transparencyColor : RGBA32)
    (start : NormalizedPalette × List Nat) (colors : List RGBA32) :
    Except String (NormalizedPalette × List Nat) :=
  colors.foldlM
    (fun acc c => do
      let r ← insertRGBA transparencyColor acc.1 c
      pure (r.1, acc.2 ++ [r.2]))
    start

/-- Feed a pixel sequence through `insertRGBA`, building the palette and the
index buffer (the body of the double loop of `candidate`). -/
def buildNormalized (transparencyColor : RGBA32) (colors : List RGBA32) :
    Except String (NormalizedPalette × List Nat) :=
  insertFold transparencyColor (initNormalizedPalette transparencyColor, []) colors

/-- `candidate` from cli_parser.cpp lines 713-734: one flip candidate of a
tile, carrying the requested flips. -/
def candidate (transparencyColor : RGBA32) (rgba : RGBATile)
    (hFlip vFlip : Bool) : Except String NormalizedTile := do
  let r ← buildNormalized transparencyColor (candidatePixels rgba hFlip vFlip)
  pure { pixels := r.2, palette := r.1, hFlip := hFlip, vFlip := vFlip }

/-- Strict lexicographic order on index buffers, the order induced by the
`std::array` spaceship operator used at cli_parser.cpp line 755. -/
def lexLt : List Nat → List Nat → Bool
  | _, [] => false
  | [], _ :: _ => true
  | a :: as, b :: bs => a < b || (a = b && lexLt as bs)

/-- `std::min_element` over candidates with comparator
`tile1->pixels < tile2->pixels`: scan left to right, replacing the current
minimum only on a strictly smaller buffer (so ties keep the earlier one). -/
def minPixelTile (first : NormalizedTile) (rest : List NormalizedTile) :
    NormalizedTile :=
  rest.foldl (fun best t => if lexLt t.pixels best.pixels then t else best) first

/-- `normalize` from cli_parser.cpp lines 736-757: build the four flip
candidates, short-circuit on an all-transparent no-flips candidate, and
otherwise return the candidate with lexicographically smallest pixels.
Candidates are built in program order, so the first exception wins. -/
def normalize (transparencyColor : RGBA32) (rgba : RGBATile) :
    Except String NormalizedTile :=
  match candidate transparencyColor rgba false false with
  | Except.error e => Except.error e
  | Except.ok noFlipsTile =>
    if noFlipsTile.transparent then Except.ok noFlipsTile
    else
      match candidate transparencyColor rgba true false with
      | Except.error e => Except.error e
      | Except.ok hFlipTile =>
        match candidate transparencyColor rgba false true with
        | Except.error e => Except.error e
        | Except.ok vFlipTile =>
          match candidate transparencyColor rgba true true with
          | Except.error e => Except.error e
          | Except.ok bothFlipsTile =>
            Except.ok (minPixelTile noFlipsTile [hFlipTile, vFlipTile, bothFlipsTile])

/-- The flip operation `flip_h_v` of spec property (P2): reverse columns when
hFlipped and rows when vFlipped. -/
def flipTile (hFlip vFlip : Bool) (t : RGBATile) : RGBATile :=
  ⟨(List.range TILE_NUM_PIX).map (fun i =>
    let row := i / TILE_SIDE_LENGTH
    let col := i % TILE_SIDE_LENGTH
    t.getPixel (if vFlip then TILE_SIDE_LENGTH - 1 - row else row)
      (if hFlip then TILE_SIDE_LENGTH - 1 - col else col))⟩

/-! Helper predicates used to characterize the normalizer's behavior. -/

/-- A pixel whose alpha is neither transparent nor opaque. -/
def badAlpha (p : RGBA32) : Bool :=
  !(p.alpha = ALPHA_TRANSPARENT) && !(p.alpha = ALPHA_OPAQUE)

/-- A pixel that `insertRGBA` accepts without an alpha error. -/
def validAlphaPix (transparencyColor : RGBA32) (p : RGBA32) : Bool :=
  (p.alpha = ALPHA_TRANSPARENT) || (p = transparencyColor) || (p.alpha = ALPHA_OPAQUE)

/-- A pixel that contributes a palette color: opaque and not transparent. -/
def contributes (transparencyColor : RGBA32) (p : RGBA32) : Bool :=
  !((p.alpha = ALPHA_TRANSPARENT) || (p = transparencyColor)) && (p.alpha = ALPHA_OPAQUE)

/-- A pixel that `insertRGBA` maps to palette slot 0. -/
def transparentPix (transparencyColor : RGBA32) (p : RGBA32) : Bool :=
  (p.alpha = ALPHA_TRANSPARENT) || (p = transparencyColor)

/-- Deduplicate a list keeping the first occurrence of each element, starting
from an already-deduplicated prefix. -/
def dedupAppend (acc : List BGR15) (l : List BGR15) : List BGR15 :=
  l.foldl (fun acc2 c => if c ∈ acc2 then acc2 else acc2 ++ [c]) acc

/-- First-appearance-order deduplication. -/
def firstDedup (l : List BGR15) : List BGR15 :=
  dedupAppend [] l

/-- The 15-bit colors contributed by a pixel sequence. -/
def contribBgrs (transparencyColor : RGBA32) (colors : List RGBA32) : List BGR15 :=
  (colors.filter (contributes transparencyColor)).map rgbaToBgr

/-! ### Palette assignment (cli_parser.cpp lines 852-975) -/

/-- A `std::bitset<240>` over the global color index. -/
abbrev ColorSet := Finset (Fin 240)

/-- The strict comparator passed to `std::stable_sort` at cli_parser.cpp
lines 921-938: primary key intersection size with `toAssign` descending,
tie-break palette popcount ascending. -/
def palSortLess (toAssign pal1 pal2 : ColorSet) : Bool :=
  if (pal1 ∩ toAssign).card = (pal2 ∩ toAssign).card then
    pal1.card < pal2.card
  else
    (pal2 ∩ toAssign).card < (pal1 ∩ toAssign).card

/-- The backtracking state of `assign`. -/
structure AssignState where
  hardwarePalettes : List ColorSet
  unassigned : List ColorSet

/-! `assign` from cli_parser.cpp lines 863-975. The C++ function mutates a
process-global recursion counter and throws when it passes
`maxRecurseCount`; we thread the counter through every call and model the
exception as `none`. The result `some (counter, found, solution)` carries
the counter value, the returned boolean and the `solution` out-parameter
(appended to only in the success base case, exactly as the C++ only touches
it there). The two `for` loops of the body are the mutually recursive
`tryPrimary` (loop over `primaryPalettes`) and `tryHardware` (loop over the
stable-sorted `hardwarePalettes`); `std::stable_sort` with a strict
comparator `less` is `mergeSort` with the total preorder
`fun a b => !(less b a)`. -/

mutual

/-- Entry of one recursion level of `assign`: bump the counter, succeed when
`unassigned` is empty, otherwise pop the last color set and try the primary
palettes and then the (sorted) hardware palettes. -/
def assign (maxRecurseCount gRecurseCount : Nat) (state : AssignState)
    (solution primaryPalettes : List ColorSet) :
    Option (Nat × Bool × List ColorSet) :=
  let cnt := gRecurseCount + 1
  if maxRecurseCount < cnt then none
  else
    match h : state.unassigned.getLast? with
    | none => some (cnt, true, solution ++ state.hardwarePalettes)
    | some toAssign =>
      match tryPrimary maxRecurseCount cnt state.hardwarePalettes
          state.unassigned.dropLast toAssign solution primaryPalettes
          primaryPalettes with
      | none => none
      | some (cnt2, true, sol) => some (cnt2, true, sol)
      | some (cnt2, false, _) =>
        tryHardware maxRecurseCount cnt2
          (state.hardwarePalettes.mergeSort (fun a b => !(palSortLess toAssign b a)))
          0 state.unassigned.dropLast toAssign solution primaryPalettes
termination_by (state.unassigned.length, 1, 0)
decreasing_by
all_goals simp_wf
all_goals
  first
  | (apply Prod.Lex.left; omega)
  | (have hpos : 0 < state.unassigned.length := by
       cases hu : state.unassigned with
       | nil => rw [hu] at h; simp at h
       | cons a l => simp
     rw [Nat.sub_add_cancel hpos]
     exact Prod.Lex.right _ (Prod.Lex.left _ _ (by omega)))

/-- The primary-reuse loop of `assign` (cli_parser.cpp lines 890-912):
recurse with unchanged hardware palettes for every primary palette that
already covers `toAssign`. -/
def tryPrimary (maxRecurseCount cnt : Nat) (hw rest : List ColorSet)
    (toAssign : ColorSet) (solution primaryPalettes remaining : List ColorSet) :
    Option (Nat × Bool × List ColorSet) :=
  match remaining with
  | [] => some (cnt, false, solution)
  | p :: ps =>
    if (p ∪ toAssign).card = p.card then
      match assign maxRecurseCount cnt ⟨hw, rest⟩ solution primaryPalettes with
      | none => none
      | some (cnt2, true, sol) => some (cnt2, true, sol)
      | some (cnt2, false, _) =>
        tryPrimary maxRecurseCount cnt2 hw rest toAssign solution
          primaryPalettes ps
    else
      tryPrimary maxRecurseCount cnt hw rest toAssign solution
        primaryPalettes ps
termination_by (rest.length + 1, 0, remaining.length)

/-- The extend-hardware loop of `assign` (cli_parser.cpp lines 940-971):
skip palettes that would exceed 15 colors, otherwise recurse with `toAssign`
merged into the palette at index `i` of the sorted vector. -/
def tryHardware (maxRecurseCount cnt : Nat) (sorted : List ColorSet) (i : Nat)
    (rest : List ColorSet) (toAssign : ColorSet)
    (solution primaryPalettes : List ColorSet) :
    Option (Nat × Bool × List ColorSet) :=
  if hlt : i < sorted.length then
    let palette := sorted.get ⟨i, hlt⟩
    if PAL_SIZE - 1 < (palette ∪ toAssign).card then
      tryHardware maxRecurseCount cnt sorted (i + 1) rest toAssign solution
        primaryPalettes
    else
      match assign maxRecurseCount cnt
          ⟨sorted.set i (palette ∪ toAssign), rest⟩ solution primaryPalettes with
      | none => none
      | some (cnt2, true, sol) => some (cnt2, true, sol)
      | some (cnt2, false, _) =>
        tryHardware maxRecurseCount cnt2 sorted (i + 1) rest toAssign solution
          primaryPalettes
  else
    some (cnt, false, solution)
termination_by (rest.length + 1, 0, sorted.length + 1 - i)

end

/-! ### Layered import (importer.cpp lines 63-333) -/

/-- The four metatile layer types. -/
inductive LayerType where
  | triple
  | normal
  | covered
  | split
deriving DecidableEq, Repr

/-- The layer-occupancy bitset of importer.cpp `getLayerBitset` (lines
63-77), as `(bottom, middle, top)` content flags. -/
def getLayerBitset (transparentColor : RGBA32)
    (bottomTile middleTile topTile : RGBATile) : Bool × Bool × Bool :=
  (!bottomTile.transparent transparentColor,
   !middleTile.transparent transparentColor,
   !topTile.transparent transparentColor)

/-- Bitwise OR of two layer bitsets. -/
def orBits (a b : Bool × Bool × Bool) : Bool × Bool × Bool :=
  (a.1 || b.1, a.2.1 || b.2.1, a.2.2 || b.2.2)

/-- `layerBitsetToLayerType` from importer.cpp lines 79-111; the `Bool`
result is whether `error_allThreeLayersHadNonTransparentContent` was
reported on this metatile. -/
def layerBitsetToLayerType (bits : Bool × Bool × Bool) : LayerType × Bool :=
  let bottomHasContent := bits.1
  let middleHasContent := bits.2.1
  let topHasContent := bits.2.2
  if bottomHasContent && middleHasContent && topHasContent then
    (LayerType.triple, true)
  else if !bottomHasContent && !middleHasContent && !topHasContent then
    (LayerType.normal, false)
  else if bottomHasContent && !middleHasContent && !topHasContent then
    (LayerType.covered, false)
  else if !bottomHasContent && middleHasContent && !topHasContent then
    (LayerType.normal, false)
  else if !bottomHasContent && !middleHasContent && topHasContent then
    (LayerType.normal, false)
  else if !bottomHasContent && middleHasContent && topHasContent then
    (LayerType.normal, false)
  else if bottomHasContent && middleHasContent && !topHasContent then
    (LayerType.covered, false)
  else
    (LayerType.split, false)

/-- One metatile after the PNG slicing of importer.cpp lines 153-241: the
subtiles of each layer in NW, NE, SW, SE order. -/
structure Metatile where
  bottomTiles : List RGBATile
  middleTiles : List RGBATile
  topTiles : List RGBATile

/-- The OR of the per-subtile layer bitsets (importer.cpp lines 262-268:
position 0 first, then OR in positions 1 and up). -/
def metatileLayerBits (transparentColor : RGBA32) (mt : Metatile) :
    Bool × Bool × Bool :=
  let bitsAt := fun i => getLayerBitset transparentColor
    (mt.bottomTiles.getD i ⟨[]⟩) (mt.middleTiles.getD i ⟨[]⟩)
    (mt.topTiles.getD i ⟨[]⟩)
  ((List.range mt.bottomTiles.length).drop 1).foldl
    (fun acc i => orBits acc (bitsAt i)) (bitsAt 0)

/-- Per-metatile body of `importLayeredTilesFromPngs` (importer.cpp lines
247-316): infer the layer type (everything is TRIPLE in triple-layer mode),
count the all-three-layers error, stamp the type on the subtiles, and push
the subtiles in the layer order selected by the switch. -/
def importMetatile (transparentColor : RGBA32) (tripleLayer : Bool)
    (mt : Metatile) : Nat × List (RGBATile × LayerType) :=
  let inferred :=
    if tripleLayer then (LayerType.triple, false)
    else layerBitsetToLayerType (metatileLayerBits transparentColor mt)
  let ty := inferred.1
  let errCount := if inferred.2 then 1 else 0
  let stamp := fun (l : List RGBATile) => l.map (fun t => (t, ty))
  let pushed :=
    match ty with
    | LayerType.triple => stamp mt.bottomTiles ++ stamp mt.middleTiles ++ stamp mt.topTiles
    | LayerType.normal => stamp mt.middleTiles ++ stamp mt.topTiles
    | LayerType.covered => stamp mt.bottomTiles ++ stamp mt.middleTiles
    | LayerType.split => stamp mt.bottomTiles ++ stamp mt.topTiles
  (errCount, pushed)

/-- The whole metatile loop of `importLayeredTilesFromPngs`: accumulate the
error count and the decompiled tiles across all metatiles. -/
def importLayeredPass (transparentColor : RGBA32) (tripleLayer : Bool)
    (metatiles : List Metatile) : Nat × List (RGBATile × LayerType) :=
  metatiles.foldl
    (fun acc mt =>
      let r := importMetatile transparentColor tripleLayer mt
      (acc.1 + r.1, acc.2 ++ r.2))
    (0, [])

/-- `importLayeredTilesFromPngs` after the dimension checks (importer.cpp
lines 147-333): run the whole pass, then die on `errCount > 0`. -/
def importLayeredTiles (transparentColor : RGBA32) (tripleLayer : Bool)
    (metatiles : List Metatile) : Except String (List (RGBATile × LayerType)) :=
  let r := importLayeredPass transparentColor tripleLayer metatiles
  if 0 < r.1 then
    Except.error "errors generated during layered tile import"
  else
    Except.ok r.2

/-! ### Tile assignment (cli_parser.cpp lines 977-1085) -/

/-- An 8×8 tile of 4-bit palette indexes, the deduplication key. -/
structure GBATile where
  colorIndexes : List Nat
deriving DecidableEq, Repr

/-- Modelled from the spec: `GBA_TILE_TRANSPARENT` lives in the missing
`types.h`; the spec says tile 0 is the fully-transparent all-zero tile. -/
def GBA_TILE_TRANSPARENT : GBATile :=
  ⟨List.replicate TILE_NUM_PIX 0⟩

/-- Modelled from the spec: `GBAPalette` lives in the missing `types.h`;
§3 defines it as exactly 16 BGR15 slots, slot 0 the transparency color,
unused trailing slots zero. -/
structure GBAPalette where
  colors : List BGR15
deriving DecidableEq, Repr

/-- A hardware palette with all 16 slots zeroed. -/
def emptyGBAPalette : GBAPalette :=
  ⟨List.replicate PAL_SIZE ⟨0⟩⟩

/-- A `(tileIndex, paletteIndex, hFlip, vFlip)` metatile entry. -/
structure Assignment where
  tileIndex : Nat
  paletteIndex : Nat
  hFlip : Bool
  vFlip : Bool
deriving DecidableEq, Repr

/-- `makeTile` from cli_parser.cpp lines 977-994: translate each normalized
palette index through the position of its color in the final hardware
palette (searched in slots 1 and up). -/
def makeTile (normalizedTile : NormalizedTile) (palette : GBAPalette) :
    Except String GBATile := do
  let paletteIndexes ← (List.range (normalizedTile.palette.colors.length - 1)).foldlM
    (fun (acc : List Nat) j =>
      match (palette.colors.drop 1).findIdx?
          (fun c => c = normalizedTile.palette.colors.getD (j + 1) ⟨0⟩) with
      | none => Except.error "it == std::end of palette.colors"
      | some pos => Except.ok (acc.set (j + 1) (pos + 1)))
    (List.replicate PAL_SIZE 0)
  Except.ok ⟨normalizedTile.pixels.map (fun i => paletteIndexes.getD i 0)⟩

/-- The mutable state built by the tile assigners: the content-dedup map,
the tile sheet, its per-tile palettes, and the per-subtile assignments. -/
structure TileAssignOut where
  tileIndexes : List (GBATile × Nat)
  tiles : List GBATile
  paletteIndexesOfTile : List Nat
  assignments : List (Option Assignment)
deriving DecidableEq, Repr

/-- Lookup in the content-dedup map. -/
def lookupTileIndex (m : List (GBATile × Nat)) (t : GBATile) : Option Nat :=
  (m.find? (fun e => e.1 = t)).map (fun e => e.2)

/-- The loop body of `assignTilesPrimary` (cli_parser.cpp lines 1007-1033):
resolve the tile's color set against the palette solution, build the GBA
tile, and either reuse a content-equal sheet entry or append a fresh one
(capped by `numTilesInPrimary`). -/
def assignPrimaryStep (numTilesInPrimary : Nat) (palettes : List GBAPalette)
    (assignedPalsSolution : List ColorSet) (st : TileAssignOut)
    (entry : Nat × NormalizedTile × ColorSet) : Except String TileAssignOut := do
  let index := entry.1
  let normTile := entry.2.1
  let colorSet := entry.2.2
  match assignedPalsSolution.findIdx? (fun pal => colorSet \ pal = ∅) with
  | none => Except.error "it == std::end of assignedPalsSolution"
  | some paletteIndex => do
    let gbaTile ← makeTile normTile (palettes.getD paletteIndex emptyGBAPalette)
    match lookupTileIndex st.tileIndexes gbaTile with
    | some tileIndex =>
      Except.ok { st with
        assignments := st.assignments.set index
          (some ⟨tileIndex, paletteIndex, normTile.hFlip, normTile.vFlip⟩) }
    | none =>
      let tileIndex := st.tiles.length
      if numTilesInPrimary < st.tiles.length + 1 then
        Except.error "too many tiles"
      else
        Except.ok
          { tileIndexes := st.tileIndexes ++ [(gbaTile, tileIndex)],
            tiles := st.tiles ++ [gbaTile],
            paletteIndexesOfTile := st.paletteIndexesOfTile ++ [paletteIndex],
            assignments := st.assignments.set index
              (some ⟨tileIndex, paletteIndex, normTile.hFlip, normTile.vFlip⟩) }

/-- `assignTilesPrimary` from cli_parser.cpp lines 996-1035: tile 0 is
forced to the transparent tile on palette 0, then every normalized tile is
resolved against the palette solution and deduplicated by content. -/
def assignTilesPrimary (numTilesInPrimary : Nat) (palettes : List GBAPalette)
    (indexedNormTilesWithColorSets : List (Nat × NormalizedTile × ColorSet))
    (assignedPalsSolution : List ColorSet) (numAssignments : Nat) :
    Except String TileAssignOut :=
  indexedNormTilesWithColorSets.foldlM
    (assignPrimaryStep numTilesInPrimary palettes assignedPalsSolution)
    { tileIndexes := [(GBA_TILE_TRANSPARENT, 0)],
      tiles := [GBA_TILE_TRANSPARENT],
      paletteIndexesOfTile := [0],
      assignments := List.replicate numAssignments none }

/-- `assignTilesSecondary` from cli_parser.cpp lines 1037-1085: resolve
against the concatenation of the primary palette color sets and the
solution; tiles already present in the paired primary reuse its index,
fresh tiles go into the local sheet offset by `numTilesInPrimary`. The
local sheet starts empty: no transparent tile is forced in. -/
def assignTilesSecondary (numTilesInPrimary numTilesInSecondary : Nat)
    (palettes : List GBAPalette)
    (pairedPrimaryTileIndexes : List (GBATile × Nat))
    (indexedNormTilesWithColorSets : List (Nat × NormalizedTile × ColorSet))
    (primaryPaletteColorSets assignedPalsSolution : List ColorSet)
    (numAssignments : Nat) : Except String TileAssignOut :=
  let allColorSets := primaryPaletteColorSets ++ assignedPalsSolution
  indexedNormTilesWithColorSets.foldlM
    (fun (st : TileAssignOut) entry => do
      let index := entry.1
      let normTile := entry.2.1
      let colorSet := entry.2.2
      match allColorSets.findIdx? (fun pal => colorSet \ pal = ∅) with
      | none => Except.error "it == std::end of allColorSets"
      | some paletteIndex => do
        let gbaTile ← makeTile normTile (palettes.getD paletteIndex emptyGBAPalette)
        match lookupTileIndex pairedPrimaryTileIndexes gbaTile with
        | some primaryIndex =>
          Except.ok { st with
            assignments := st.assignments.set index
              (some ⟨primaryIndex, paletteIndex, normTile.hFlip, normTile.vFlip⟩) }
        | none =>
          match lookupTileIndex st.tileIndexes gbaTile with
          | some tileIndex =>
            Except.ok { st with
              assignments := st.assignments.set index
                (some ⟨tileIndex + numTilesInPrimary, paletteIndex,
                  normTile.hFlip, normTile.vFlip⟩) }
          | none =>
            let tileIndex := st.tiles.length
            if numTilesInSecondary < st.tiles.length + 1 then
              Except.error "too many tiles"
            else
              Except.ok
                { tileIndexes := st.tileIndexes ++ [(gbaTile, tileIndex)],
                  tiles := st.tiles ++ [gbaTile],
                  paletteIndexesOfTile := st.paletteIndexesOfTile ++ [paletteIndex],
                  assignments := st.assignments.set index
                    (some ⟨tileIndex + numTilesInPrimary, paletteIndex,
                      normTile.hFlip, normTile.vFlip⟩) })
    { tileIndexes := [],
      tiles := [],
      paletteIndexesOfTile := [],
      assignments := List.replicate numAssignments none }

/-! ### Color index maps (cli_parser.cpp lines 774-815) -/

/-- The seeding step of `buildColorIndexMaps` (cli_parser.cpp lines
785-795): insert one paired-primary `(color, index)` entry into the two
maps, throwing on a duplicated color key. -/
def seedColorStep (acc : List (BGR15 × Nat) × List (Nat × BGR15))
    (ci : BGR15 × Nat) :
    Except String (List (BGR15 × Nat) × List (Nat × BGR15)) :=
  if (acc.1.find? (fun e => e.1 = ci.1)).isSome then
    Except.error "double inserted a color from primary set"
  else
    Except.ok (acc.1 ++ [ci],
      if (acc.2.find? (fun e => e.1 = ci.2)).isSome then acc.2
      else acc.2 ++ [(ci.2, ci.1)])

/-- The per-color step of `buildColorIndexMaps` (cli_parser.cpp lines
797-806): skip colors already indexed, give a fresh color the next index
in both maps and bump the counter. -/
def freshColorStep (acc2 : (List (BGR15 × Nat) × List (Nat × BGR15)) × Nat)
    (color : BGR15) : (List (BGR15 × Nat) × List (Nat × BGR15)) × Nat :=
  if (acc2.1.1.find? (fun e => e.1 = color)).isSome then acc2
  else ((acc2.1.1 ++ [(color, acc2.2)], acc2.1.2 ++ [(acc2.2, color)]),
    acc2.2 + 1)

/-- `buildColorIndexMaps` from cli_parser.cpp lines 774-815. The two
`std::unordered_map`s are embedded as association lists in insertion order
(the C++ iteration order over the seed map is unspecified, so theorems
below quantify over an arbitrary order of `primaryIndexMap`). -/
def buildColorIndexMaps (numPalettesInPrimary : Nat)
    (normalizedTiles : List (Nat × NormalizedTile))
    (primaryIndexMap : List (BGR15 × Nat)) :
    Except String (List (BGR15 × Nat) × List (Nat × BGR15)) := do
  let seeded ← primaryIndexMap.foldlM seedColorStep ([], [])
  let final := normalizedTiles.foldl
    (fun (acc : (List (BGR15 × Nat) × List (Nat × BGR15)) × Nat) it =>
      (it.2.palette.colors.drop 1).foldl freshColorStep acc)
    (seeded, primaryIndexMap.length)
  if (PAL_SIZE - 1) * numPalettesInPrimary < final.2 then
    Except.error "too many unique colors"
  else
    Except.ok final.1

/-! ### Palette materialization in `compile` (cli_parser.cpp lines 1202-1235) -/

/-- The body of one palette-materialization loop iteration: slot 0 gets the
transparency color, then the set bits of the assignment fill slots 1 and up
in ascending bit-index order, leaving the remaining slots untouched. -/
def materializeGBAPalette (transparencyColor : RGBA32)
    (indexToColor : Nat → BGR15) (palAssignments : ColorSet) (p : GBAPalette) :
    GBAPalette :=
  let start : GBAPalette × Nat := (⟨p.colors.set 0 (rgbaToBgr transparencyColor)⟩, 1)
  ((List.finRange 240).foldl
    (fun (acc : GBAPalette × Nat) j =>
      if j ∈ palAssignments then
        (⟨acc.1.colors.set acc.2 (indexToColor j.val)⟩, acc.2 + 1)
      else acc)
    start).1

/-- The per-slot copy loop of the secondary palette phase (cli_parser.cpp
lines 1220-1224): overwrite each of palette `i`'s 16 slots with the paired
primary's color. -/
def copyPrimarySlots (primaryPalettes : List GBAPalette) (i : Nat)
    (p : GBAPalette) : GBAPalette :=
  ⟨(List.range PAL_SIZE).foldl
    (fun cols j =>
      cols.set j ((primaryPalettes.getD i emptyGBAPalette).colors.getD j ⟨0⟩))
    p.colors⟩

/-- The secondary branch of the palette phase of `compile` (cli_parser.cpp
lines 1216-1234): palettes `[0, numPalettesInPrimary)` copy the paired
primary's palettes slot by slot; palettes
`[numPalettesInPrimary, numPalettesTotal)` materialize the solution. The
vector starts as `numPalettesTotal` default palettes (the `resize`). -/
def buildCompiledPalettesSecondary (transparencyColor : RGBA32)
    (primaryPalettes : List GBAPalette) (indexToColor : Nat → BGR15)
    (assignedPalsSolution : List ColorSet)
    (numPalettesInPrimary numPalettesTotal : Nat) : List GBAPalette :=
  let init : List GBAPalette := List.replicate numPalettesTotal emptyGBAPalette
  let afterCopy := (List.range numPalettesInPrimary).foldl
    (fun ps i =>
      ps.set i (copyPrimarySlots primaryPalettes i (ps.getD i emptyGBAPalette)))
    init
  (List.range (numPalettesTotal - numPalettesInPrimary)).foldl
    (fun ps k =>
      ps.set (numPalettesInPrimary + k)
        (materializeGBAPalette transparencyColor indexToColor
          (assignedPalsSolution.getD k ∅)
          (ps.getD (numPalettesInPrimary + k) emptyGBAPalette)))
    afterCopy

/-- Soundness contract for a result of the `assign` search: whenever it
reports success, the solution out-parameter has been extended by one
palette per hardware palette slot, each grown from some input hardware
palette, staying within 15 colors (when the inputs do), and covering every
unassigned color set either by a solution palette or by a primary
palette. -/
def assignPost (hw unassigned prim sol : List ColorSet)
    (res : Option (Nat × Bool × List ColorSet)) : Prop :=
  ∀ cnt2 sol2, res = some (cnt2, true, sol2) →
    ∃ P, sol2 = sol ++ P ∧ P.length = hw.length ∧
      (∀ q ∈ hw, ∃ p ∈ P, q ⊆ p) ∧
      ((∀ q ∈ hw, q.card ≤ 15) → ∀ p ∈ P, p.card ≤ 15) ∧
      (∀ u ∈ unassigned, (∃ p ∈ P, u ⊆ p) ∨ ∃ q ∈ prim, u ⊆ q)

/-- The flip pairs in the order `normalize` builds its candidates:
no flips, hFlip only, vFlip only, both flips. -/
def flipPairs : List (Bool × Bool) :=
  [(false, false), (true, false), (false, true), (true, true)]

/-! Concrete colors and tiles used to instantiate the theorems (the default
transparency color and the named colors of `types.h`, modelled from the
spec and from `1.0.0/src/types.cpp`). -/

/-- The default transparency color, opaque magenta. -/
def RGBA_MAGENTA : RGBA32 := ⟨255, 0, 255, 255⟩

/-- Opaque red. -/
def RGBA_RED : RGBA32 := ⟨255, 0, 0, 255⟩

/-- Opaque blue. -/
def RGBA_BLUE : RGBA32 := ⟨0, 0, 255, 255⟩

/-- A tile whose every row is four red pixels then four blue pixels. -/
def stripeTile : RGBATile :=
  ⟨List.flatten (List.replicate 8
    [RGBA_RED, RGBA_RED, RGBA_RED, RGBA_RED,
     RGBA_BLUE, RGBA_BLUE, RGBA_BLUE, RGBA_BLUE])⟩

/-- A tile with a red pixel in the top-left corner and blue elsewhere. -/
def cornerTile : RGBATile :=
  ⟨RGBA_RED :: List.replicate 63 RGBA_BLUE⟩

/-- A tile with fifteen distinct opaque colors and transparent filler: the
palette budget boundary case. -/
def fifteenTile : RGBATile :=
  ⟨(List.range 15).map (fun i => ⟨8 * i, 0, 0, 255⟩) ++
    List.replicate 49 RGBA_MAGENTA⟩

/-- The normal form of `stripeTile` (checked by evaluation). -/
def stripeNormResult : NormalizedTile :=
  ⟨List.flatten (List.replicate 8 [1, 1, 1, 1, 2, 2, 2, 2]),
    ⟨[⟨31775⟩, ⟨31⟩, ⟨31744⟩]⟩, false, false⟩

/-- The normal form of `cornerTile` (checked by evaluation): both flips. -/
def cornerNormResult : NormalizedTile :=
  ⟨List.replicate 63 1 ++ [2], ⟨[⟨31775⟩, ⟨31744⟩, ⟨31⟩]⟩, true, true⟩

/-- The no-flips candidate of `cornerTile` (checked by evaluation). -/
def cornerNoFlips : NormalizedTile :=
  ⟨1 :: List.replicate 63 2, ⟨[⟨31775⟩, ⟨31⟩, ⟨31744⟩]⟩, false, false⟩

/-- The layer-inference table exactly as the spec (§4.1) and claim state
it, on (bottom, middle, top) OR'd content bits; 111 is the error row, which
the source resolves to TRIPLE while reporting. -/
def specLayerTable (bits : Bool × Bool × Bool) : LayerType :=
  match bits with
  | (false, false, false) => LayerType.normal
  | (true, false, false) => LayerType.covered
  | (false, true, false) => LayerType.normal
  | (false, false, true) => LayerType.normal
  | (false, true, true) => LayerType.normal
  | (true, true, false) => LayerType.covered
  | (true, false, true) => LayerType.split
  | (true, true, true) => LayerType.triple

/-- The subtile selection and layer order the spec prescribes per inferred
layer type: TRIPLE bottom·middle·top, NORMAL middle·top, COVERED
bottom·middle, SPLIT bottom·top. -/
def specMetatileTiles (transparentColor : RGBA32) (mt : Metatile) :
    List (RGBATile × LayerType) :=
  let ty := specLayerTable (metatileLayerBits transparentColor mt)
  let stamp := fun (l : List RGBATile) => l.map (fun t => (t, ty))
  match ty with
  | LayerType.triple => stamp mt.bottomTiles ++ stamp mt.middleTiles ++ stamp mt.topTiles
  | LayerType.normal => stamp mt.middleTiles ++ stamp mt.topTiles
  | LayerType.covered => stamp mt.bottomTiles ++ stamp mt.middleTiles
  | LayerType.split => stamp mt.bottomTiles ++ stamp mt.topTiles

/-- A fully red 8×8 tile. -/
def redTile : RGBATile := ⟨List.replicate 64 RGBA_RED⟩

/-- A fully magenta (transparent under the default color) 8×8 tile. -/
def magTile : RGBATile := ⟨List.replicate 64 RGBA_MAGENTA⟩

/-- A metatile with non-transparent content on all three layers. -/
def badMetatile : Metatile :=
  ⟨List.replicate 4 redTile, List.replicate 4 redTile, List.replicate 4 redTile⟩

/-- A metatile with content only on the middle layer (NORMAL). -/
def goodMetatile : Metatile :=
  ⟨List.replicate 4 magTile, List.replicate 4 redTile, List.replicate 4 magTile⟩

/-- A hardware palette holding the transparency color, red, and zeros. -/
def secPalette : GBAPalette :=
  ⟨rgbaToBgr RGBA_MAGENTA :: rgbaToBgr RGBA_RED :: List.replicate 14 ⟨0⟩⟩

/-- A normalized tile whose every pixel is normalized-palette slot 1 (red). -/
def secNormTile : NormalizedTile :=
  ⟨List.replicate 64 1, ⟨[rgbaToBgr RGBA_MAGENTA, rgbaToBgr RGBA_RED]⟩,
    false, false⟩

/-- The output of a one-tile primary assignment over `secPalette`. -/
def primRunOut : TileAssignOut :=
  ⟨[(GBA_TILE_TRANSPARENT, 0), (⟨List.replicate 64 1⟩, 1)],
   [GBA_TILE_TRANSPARENT, ⟨List.replicate 64 1⟩], [0, 0],
   [some ⟨1, 0, false, false⟩]⟩

/-- The number of distinct colors `buildColorIndexMaps` ends up indexing:
the seeded primary colors followed by each tile's non-transparent palette
colors, deduplicated in first-appearance order. -/
def distinctColorCount (normalizedTiles : List (Nat × NormalizedTile))
    (primaryIndexMap : List (BGR15 × Nat)) : Nat :=
  (normalizedTiles.foldl
    (fun (acc : List BGR15) it =>
      (it.2.palette.colors.drop 1).foldl
        (fun a c => if c ∈ a then a else a ++ [c]) acc)
    (primaryIndexMap.map Prod.fst)).length

/-- Modelled from the spec: the "color capacity available to the secondary
set" — 15 usable slots in each of the `numPalettesTotal` hardware palettes
a secondary tile may reference. -/
def specSecondaryColorBudget (numPalettesTotal : Nat) : Nat :=
  (PAL_SIZE - 1) * numPalettesTotal

/-- A primary color-index seed of 15 distinct colors at indexes 0..14. -/
def seedFifteen : List (BGR15 × Nat) :=
  (List.range 15).map (fun i => (⟨i + 1⟩, i))

/-- A normalized tile whose single non-transparent color is fresh with
respect to `seedFifteen`. -/
def freshNormTile : NormalizedTile :=
  ⟨List.replicate 64 1, ⟨[⟨31775⟩, ⟨100⟩]⟩, false, false⟩

/-- The invariant of the `buildColorIndexMaps` fold state: forward keys
are distinct, the fresh-index counter equals the forward size, the forward
values are exactly the indexes `[0, counter)`, and the reverse map is the
forward map entrywise swapped. -/
def cimInv (s : (List (BGR15 × Nat) × List (Nat × BGR15)) × Nat) : Prop :=
  (s.1.1.map Prod.fst).Nodup ∧ s.1.1.length = s.2 ∧
    (s.1.1.map Prod.snd).Perm (List.range s.2) ∧ s.1.2 = s.1.1.map Prod.swap

/-- View of an `Except` keeping only the error message, used to state
concrete failing runs. -/
def exceptView {α : Type} (x : Except String α) : Option String :=
  match x with
  | Except.error e => some e
  | Except.ok _ => none

/-!
## Theorems

First, the order theory of the lexicographic comparison used by
`normalize`'s `std::min_element` call.
-/

theorem lexLt_irrefl : ∀ a : List Nat, lexLt a a = false := by
  intro a
  induction a with
  | nil => rfl
  | cons x xs ih => simp [lexLt, ih]

theorem lexLt_trans : ∀ a b c : List Nat, lexLt a b = true → lexLt b c = true →
    lexLt a c = true := by
  intro a
  induction a with
  | nil =>
    intro b c hab hbc
    cases b with
    | nil => exact absurd hab (by simp [lexLt])
    | cons y ys =>
      cases c with
      | nil => exact absurd hbc (by simp [lexLt])
      | cons z zs => simp [lexLt]
  | cons x xs ih =>
    intro b c hab hbc
    cases b with
    | nil => exact absurd hab (by simp [lexLt])
    | cons y ys =>
      cases c with
      | nil => exact absurd hbc (by simp [lexLt])
      | cons z zs =>
        simp only [lexLt, Bool.or_eq_true, Bool.and_eq_true, decide_eq_true_eq] at hab hbc ⊢
        rcases hab with hxy | ⟨hxy, hrest⟩
        · rcases hbc with hyz | ⟨hyz, _⟩
          · exact Or.inl (Nat.lt_trans hxy hyz)
          · exact Or.inl (hyz ▸ hxy)
        · rcases hbc with hyz | ⟨hyz, hrest2⟩
          · exact Or.inl (hxy ▸ hyz)
          · exact Or.inr ⟨hxy.trans hyz, ih ys zs hrest hrest2⟩

theorem lexLt_connex : ∀ a b : List Nat, a ≠ b →
    lexLt a b = true ∨ lexLt b a = true := by
  intro a
  induction a with
  | nil =>
    intro b hne
    cases b with
    | nil => exact absurd rfl hne
    | cons y ys => exact Or.inl (by simp [lexLt])
  | cons x xs ih =>
    intro b hne
    cases b with
    | nil => exact Or.inr (by simp [lexLt])
    | cons y ys =>
      by_cases hxy : x = y
      · subst hxy
        have hne2 : xs ≠ ys := by
          intro hE
          exact hne (by rw [hE])
        rcases ih ys hne2 with hlt | hlt
        · exact Or.inl (by simp [lexLt, hlt])
        · exact Or.inr (by simp [lexLt, hlt])
      · rcases Nat.lt_or_ge x y with hlt | hge
        · exact Or.inl (by simp [lexLt, hlt])
        · have hlt : y < x := Nat.lt_of_le_of_ne hge (fun hE => hxy hE.symm)
          exact Or.inr (by simp [lexLt, hlt])

theorem lexLt_asymm (a b : List Nat) (hab : lexLt a b = true) :
    lexLt b a = false := by
  by_contra hba
  have hba2 : lexLt b a = true := by
    cases hE : lexLt b a
    · exact absurd hE hba
    · rfl
  have : lexLt a a = true := lexLt_trans a b a hab hba2
  rw [lexLt_irrefl] at this
  exact Bool.false_ne_true this

theorem lexLt_antisymm (a b : List Nat) (hab : lexLt a b = false)
    (hba : lexLt b a = false) : a = b := by
  by_contra hne
  rcases lexLt_connex a b hne with h | h
  · rw [h] at hab; exact absurd hab (by simp)
  · rw [h] at hba; exact absurd hba (by simp)

theorem lexLt_lt_of_lt_of_not_lt (a b c : List Nat) (h1 : lexLt a b = true)
    (h2 : lexLt c b = false) : lexLt a c = true := by
  by_cases hac : a = c
  · subst hac
    rw [h1] at h2
    exact absurd h2 (by simp)
  · rcases lexLt_connex a c hac with h | h
    · exact h
    · have : lexLt c b = true := lexLt_trans c a b h h1
      rw [this] at h2
      exact absurd h2 (by simp)

theorem lexLt_lt_of_not_lt_of_lt (a b c : List Nat) (h1 : lexLt b a = false)
    (h2 : lexLt b c = true) : lexLt a c = true := by
  by_cases hac : a = c
  · subst hac
    rw [h2] at h1
    exact absurd h1 (by simp)
  · rcases lexLt_connex a c hac with h | h
    · exact h
    · have : lexLt b a = true := lexLt_trans b c a h2 h
      rw [this] at h1
      exact absurd h1 (by simp)

/-! Properties of the `std::min_element` fold. -/

theorem minPixelTile_cons (first b : NormalizedTile) (rest : List NormalizedTile) :
    minPixelTile first (b :: rest) =
      minPixelTile (if lexLt b.pixels first.pixels then b else first) rest := rfl

theorem getD_default_irrel {α : Type} (l : List α) (j : Nat) (hj : j < l.length)
    (d1 d2 : α) : l.getD j d1 = l.getD j d2 := by
  rw [List.getD_eq_getElem l d1 hj, List.getD_eq_getElem l d2 hj]

theorem minPixelTile_mem : ∀ (rest : List NormalizedTile) (first : NormalizedTile),
    minPixelTile first rest = first ∨ minPixelTile first rest ∈ rest := by
  intro rest
  induction rest with
  | nil => intro first; exact Or.inl rfl
  | cons b rest ih =>
    intro first
    rw [minPixelTile_cons]
    by_cases hb : lexLt b.pixels first.pixels = true
    · rw [if_pos hb]
      rcases ih b with h | h
      · exact Or.inr (by rw [h]; exact List.mem_cons_self b rest)
      · exact Or.inr (List.mem_cons_of_mem b h)
    · rw [if_neg hb]
      rcases ih first with h | h
      · exact Or.inl h
      · exact Or.inr (List.mem_cons_of_mem b h)

theorem minPixelTile_le : ∀ (rest : List NormalizedTile) (first x : NormalizedTile),
    (x = first ∨ x ∈ rest) →
    lexLt x.pixels (minPixelTile first rest).pixels = false := by
  intro rest
  induction rest with
  | nil =>
    intro first x hx
    rcases hx with hx | hx
    · subst hx; exact lexLt_irrefl x.pixels
    · exact absurd hx (List.not_mem_nil x)
  | cons b rest ih =>
    intro first x hx
    rw [minPixelTile_cons]
    by_cases hb : lexLt b.pixels first.pixels = true
    · rw [if_pos hb]
      rcases hx with hx | hx
      · -- x = first, and b < first, so min ≤ b < first
        subst hx
        have hbm := ih b b (Or.inl rfl)
        by_contra hxm
        have hxm2 : lexLt x.pixels (minPixelTile b rest).pixels = true :=
          Bool.of_not_eq_false hxm
        have hcon : lexLt b.pixels (minPixelTile b rest).pixels = true :=
          lexLt_trans _ _ _ hb hxm2
        rw [hbm] at hcon
        exact absurd hcon (by simp)
      · rcases List.mem_cons.mp hx with hx | hx
        · subst hx; exact ih x x (Or.inl rfl)
        · exact ih b x (Or.inr hx)
    · rw [if_neg hb]
      have hbf : lexLt b.pixels first.pixels = false := Bool.of_not_eq_true hb
      rcases hx with hx | hx
      · subst hx; exact ih x x (Or.inl rfl)
      · rcases List.mem_cons.mp hx with hx | hx
        · -- x = b, first ≤ b, min ≤ first
          subst hx
          have hfm := ih first first (Or.inl rfl)
          by_contra hxm
          have hxm2 : lexLt x.pixels (minPixelTile first rest).pixels = true :=
            Bool.of_not_eq_false hxm
          have hcon : lexLt first.pixels (minPixelTile first rest).pixels = true :=
            lexLt_lt_of_not_lt_of_lt _ _ _ hbf hxm2
          rw [hfm] at hcon
          exact absurd hcon (by simp)
        · exact ih first x (Or.inr hx)

theorem minPixelTile_first : ∀ (rest : List NormalizedTile) (first : NormalizedTile),
    ∃ k, k < (first :: rest).length ∧
      minPixelTile first rest = (first :: rest).getD k first ∧
      ∀ j, j < k →
        lexLt (minPixelTile first rest).pixels
          (((first :: rest).getD j first).pixels) = true := by
  intro rest
  induction rest with
  | nil =>
    intro first
    exact ⟨0, by simp, by simp [minPixelTile, List.getD], by omega⟩
  | cons b rest ih =>
    intro first
    rw [minPixelTile_cons]
    by_cases hb : lexLt b.pixels first.pixels = true
    · rw [if_pos hb]
      obtain ⟨k2, hk2len, hk2eq, hk2min⟩ := ih b
      refine ⟨k2 + 1, by simpa using hk2len, ?_, ?_⟩
      · cases k2 with
        | zero => simpa using hk2eq
        | succ j2 =>
          have hlt : j2 < rest.length := by simpa using hk2len
          have hgd : (b :: rest).getD (j2 + 1) b = (first :: b :: rest).getD (j2 + 2) first := by
            simp only [List.getD_cons_succ]
            exact getD_default_irrel rest j2 hlt b first
          rw [hk2eq] at *
          rw [hgd]
      · intro j hj
        cases j with
        | zero =>
          -- min ≤ b < first
          have hmb : lexLt (minPixelTile b rest).pixels b.pixels = true ∨
              minPixelTile b rest = b := by
            cases k2 with
            | zero => exact Or.inr (by simpa using hk2eq)
            | succ j2 => exact Or.inl (by simpa using hk2min 0 (by omega))
          simp only [List.getD_cons_zero]
          rcases hmb with hmb | hmb
          · exact lexLt_trans _ _ _ hmb hb
          · rw [hmb]; exact hb
        | succ j2 =>
          have hj2 : j2 < k2 := by omega
          have := hk2min j2 hj2
          cases j2 with
          | zero => simpa using this
          | succ j3 =>
            simp only [List.getD_cons_succ] at this ⊢
            have hj3 : j3 < rest.length := by
              simp at hk2len
              omega
            rw [getD_default_irrel rest j3 hj3 first b]
            exact this
    · rw [if_neg hb]
      have hbf : lexLt b.pixels first.pixels = false := Bool.of_not_eq_true hb
      obtain ⟨k2, hk2len, hk2eq, hk2min⟩ := ih first
      cases k2 with
      | zero =>
        refine ⟨0, by simp, by simpa using hk2eq, by omega⟩
      | succ j2 =>
        refine ⟨j2 + 2, by simpa using hk2len, ?_, ?_⟩
        · have hlt : j2 < rest.length := by simpa using hk2len
          have hgd : (first :: rest).getD (j2 + 1) first = (first :: b :: rest).getD (j2 + 2) first := by
            simp only [List.getD_cons_succ]
          rw [hk2eq, hgd]
        · intro j hj
          cases j with
          | zero =>
            simp only [List.getD_cons_zero]
            exact (by simpa using hk2min 0 (by omega))
          | succ j3 =>
            cases j3 with
            | zero =>
              -- min < first ≤ b
              have hmf : lexLt (minPixelTile first rest).pixels first.pixels = true := by
                simpa using hk2min 0 (by omega)
              simp only [List.getD_cons_succ, List.getD_cons_zero]
              exact lexLt_lt_of_lt_of_not_lt _ _ _ hmf hbf
            | succ j4 =>
              have hj4 : j4 + 1 < j2 + 1 := by omega
              have := hk2min (j4 + 1) hj4
              simpa using this

/-! Geometry of the four flip scans. -/

theorem getPixel_flipTile (t : RGBATile) (hf vf : Bool) (r c : Nat)
    (hr : r < 8) (hc : c < 8) :
    (flipTile hf vf t).getPixel r c =
      t.getPixel (if vf then 7 - r else r) (if hf then 7 - c else c) := by
  have hidx : r * 8 + c < 64 := by omega
  simp only [flipTile, RGBATile.getPixel, TILE_SIDE_LENGTH, TILE_NUM_PIX]
  rw [List.getD_eq_getElem _ _ (by simpa using hidx)]
  simp only [List.getElem_map, List.getElem_range]
  have hdiv : (r * 8 + c) / 8 = r := by omega
  have hmod : (r * 8 + c) % 8 = c := by omega
  rw [hdiv, hmod]

theorem flipIdx_comp (u w : Bool) (r : Nat) (hr : r < 8) :
    (if u then 7 - (if w then 7 - r else r) else (if w then 7 - r else r)) =
      (if xor u w then 7 - r else r) := by
  cases u <;> cases w <;> simp <;> omega

theorem candidatePixels_flip_comp (t : RGBATile) (hf vf a b : Bool) :
    candidatePixels (flipTile hf vf t) a b = candidatePixels t (xor hf a) (xor vf b) := by
  unfold candidatePixels
  apply List.map_congr_left
  intro i hi
  have hi64 : i < 64 := by simpa [TILE_NUM_PIX] using hi
  simp only [TILE_SIDE_LENGTH]
  have hrow : i / 8 < 8 := by omega
  have hcol : i % 8 < 8 := by omega
  have hr2 : (if b then 7 - i / 8 else i / 8) < 8 := by
    cases b <;> simp <;> omega
  have hc2 : (if a then 7 - i % 8 else i % 8) < 8 := by
    cases a <;> simp <;> omega
  rw [getPixel_flipTile t hf vf _ _ hr2 hc2]
  rw [flipIdx_comp vf b (i / 8) hrow, flipIdx_comp hf a (i % 8) hcol]

theorem candidate_flip_comp (tc : RGBA32) (t : RGBATile) (hf vf a b : Bool) :
    candidate tc (flipTile hf vf t) a b =
      (candidate tc t (xor hf a) (xor vf b)).map
        (fun r => { r with hFlip := a, vFlip := b }) := by
  unfold candidate
  rw [candidatePixels_flip_comp]
  cases hB : buildNormalized tc (candidatePixels t (xor hf a) (xor vf b)) with
  | error e => simp [hB, Except.map]
  | ok r => simp [hB, Except.map]

theorem all_scan_iff (t : RGBATile) (P : RGBA32 → Bool) (hf vf : Bool) :
    (candidatePixels t hf vf).all P = true ↔
      ∀ r c, r < 8 → c < 8 → P (t.getPixel r c) = true := by
  unfold candidatePixels
  simp only [TILE_SIDE_LENGTH, TILE_NUM_PIX, List.all_eq_true, List.mem_map,
    List.mem_range, forall_exists_index, and_imp]
  constructor
  · intro hall r c hr hc
    have hidx : (if vf then 7 - r else r) * 8 + (if hf then 7 - c else c) < 64 := by
      cases vf <;> cases hf <;> simp <;> omega
    have := hall (t.getPixel r c)
      ((if vf then 7 - r else r) * 8 + (if hf then 7 - c else c)) hidx
    apply this
    have hdiv : ((if vf then 7 - r else r) * 8 + (if hf then 7 - c else c)) / 8 =
        (if vf then 7 - r else r) := by
      cases vf <;> cases hf <;> simp <;> omega
    have hmod : ((if vf then 7 - r else r) * 8 + (if hf then 7 - c else c)) % 8 =
        (if hf then 7 - c else c) := by
      cases vf <;> cases hf <;> simp <;> omega
    rw [hdiv, hmod]
    congr 1
    · cases vf <;> simp <;> omega
    · cases hf <;> simp <;> omega
  · intro hpt x i hi hx
    subst hx
    have hrow : i / 8 < 8 := by omega
    have hcol : i % 8 < 8 := by omega
    apply hpt
    · cases vf <;> simp <;> omega
    · cases hf <;> simp <;> omega

theorem mem_scan_iff (t : RGBATile) (x : RGBA32) (hf vf : Bool) :
    x ∈ candidatePixels t hf vf ↔ ∃ r c, r < 8 ∧ c < 8 ∧ t.getPixel r c = x := by
  unfold candidatePixels
  simp only [TILE_SIDE_LENGTH, TILE_NUM_PIX, List.mem_map, List.mem_range]
  constructor
  · rintro ⟨i, hi, hx⟩
    refine ⟨if vf then 7 - i / 8 else i / 8, if hf then 7 - i % 8 else i % 8, ?_, ?_, hx⟩
    · cases vf <;> simp <;> omega
    · cases hf <;> simp <;> omega
  · rintro ⟨r, c, hr, hc, hx⟩
    refine ⟨(if vf then 7 - r else r) * 8 + (if hf then 7 - c else c), ?_, ?_⟩
    · cases vf <;> cases hf <;> simp <;> omega
    · have hdiv : ((if vf then 7 - r else r) * 8 + (if hf then 7 - c else c)) / 8 =
          (if vf then 7 - r else r) := by
        cases vf <;> cases hf <;> simp <;> omega
      have hmod : ((if vf then 7 - r else r) * 8 + (if hf then 7 - c else c)) % 8 =
          (if hf then 7 - c else c) := by
        cases vf <;> cases hf <;> simp <;> omega
      rw [hdiv, hmod, ← hx]
      congr 1
      · cases vf <;> simp <;> omega
      · cases hf <;> simp <;> omega

/-! Behavior of the `insertRGBA` fold. -/

theorem insertFold_nil (tc : RGBA32) (s : NormalizedPalette × List Nat) :
    insertFold tc s [] = Except.ok s := rfl

theorem insertFold_cons (tc : RGBA32) (s : NormalizedPalette × List Nat)
    (p : RGBA32) (ps : List RGBA32) :
    insertFold tc s (p :: ps) =
      match insertRGBA tc s.1 p with
      | Except.error e => Except.error e
      | Except.ok r => insertFold tc (r.1, s.2 ++ [r.2]) ps := by
  cases hI : insertRGBA tc s.1 p <;>
    simp [insertFold, List.foldlM_cons, hI, Bind.bind, Except.bind, Pure.pure,
      Except.pure]

theorem insertRGBA_of_transparent (tc : RGBA32) (pal : NormalizedPalette)
    (p : RGBA32) (htr : transparentPix tc p = true) :
    insertRGBA tc pal p = Except.ok (pal, 0) := by
  simp only [transparentPix, Bool.or_eq_true, decide_eq_true_eq] at htr
  simp [insertRGBA, htr]

theorem insertRGBA_of_badAlpha (tc : RGBA32) (pal : NormalizedPalette)
    (p : RGBA32) (htr : transparentPix tc p = false)
    (hop : ¬(p.alpha = ALPHA_OPAQUE)) :
    insertRGBA tc pal p =
      Except.error ("invalid alpha value: " ++ toString p.alpha) := by
  simp only [transparentPix, Bool.or_eq_false_iff, decide_eq_false_iff_not] at htr
  have h1 : ¬(p.alpha = 0) := by simpa [ALPHA_TRANSPARENT] using htr.1
  have h3 : ¬(p.alpha = 255) := by simpa [ALPHA_OPAQUE] using hop
  simp [insertRGBA, h1, htr.2, h3, ALPHA_TRANSPARENT, ALPHA_OPAQUE]

theorem insertRGBA_of_found (tc : RGBA32) (pal : NormalizedPalette)
    (p : RGBA32) (j : Nat) (htr : transparentPix tc p = false)
    (hop : p.alpha = ALPHA_OPAQUE)
    (hF : (pal.colors.drop 1).findIdx? (fun c => c = rgbaToBgr p) = some j) :
    insertRGBA tc pal p = Except.ok (pal, j + 1) := by
  simp only [transparentPix, Bool.or_eq_false_iff, decide_eq_false_iff_not] at htr
  simp only [List.drop_one] at hF
  have h1 : ¬(p.alpha = 0) := by simpa [ALPHA_TRANSPARENT] using htr.1
  have h3 : p.alpha = 255 := by simpa [ALPHA_OPAQUE] using hop
  simp [insertRGBA, h1, htr.2, h3, hF, ALPHA_TRANSPARENT, ALPHA_OPAQUE, List.drop_one]

theorem insertRGBA_of_full (tc : RGBA32) (pal : NormalizedPalette)
    (p : RGBA32) (htr : transparentPix tc p = false)
    (hop : p.alpha = ALPHA_OPAQUE)
    (hF : (pal.colors.drop 1).findIdx? (fun c => c = rgbaToBgr p) = none)
    (hlen : pal.colors.length = PAL_SIZE) :
    insertRGBA tc pal p = Except.error "too many unique colors in tile" := by
  simp only [transparentPix, Bool.or_eq_false_iff, decide_eq_false_iff_not] at htr
  simp only [List.drop_one] at hF
  have h1 : ¬(p.alpha = 0) := by simpa [ALPHA_TRANSPARENT] using htr.1
  have h3 : p.alpha = 255 := by simpa [ALPHA_OPAQUE] using hop
  simp [insertRGBA, h1, htr.2, h3, hF, hlen, ALPHA_TRANSPARENT, ALPHA_OPAQUE, List.drop_one]

theorem insertRGBA_of_new (tc : RGBA32) (pal : NormalizedPalette)
    (p : RGBA32) (htr : transparentPix tc p = false)
    (hop : p.alpha = ALPHA_OPAQUE)
    (hF : (pal.colors.drop 1).findIdx? (fun c => c = rgbaToBgr p) = none)
    (hlen : ¬(pal.colors.length = PAL_SIZE)) :
    insertRGBA tc pal p =
      Except.ok (⟨pal.colors ++ [rgbaToBgr p]⟩, pal.colors.length) := by
  simp only [transparentPix, Bool.or_eq_false_iff, decide_eq_false_iff_not] at htr
  simp only [List.drop_one] at hF
  have h1 : ¬(p.alpha = 0) := by simpa [ALPHA_TRANSPARENT] using htr.1
  have h3 : p.alpha = 255 := by simpa [ALPHA_OPAQUE] using hop
  simp [insertRGBA, h1, htr.2, h3, hF, hlen, ALPHA_TRANSPARENT, ALPHA_OPAQUE, List.drop_one]

theorem dedupAppend_cons (acc : List BGR15) (c : BGR15) (l : List BGR15) :
    dedupAppend acc (c :: l) =
      dedupAppend (if c ∈ acc then acc else acc ++ [c]) l := by
  simp [dedupAppend]

theorem dedupAppend_length_le (l acc : List BGR15) :
    acc.length ≤ (dedupAppend acc l).length := by
  induction l generalizing acc with
  | nil => simp [dedupAppend]
  | cons c cs ih =>
    rw [dedupAppend_cons]
    by_cases hc : c ∈ acc
    · rw [if_pos hc]; exact ih acc
    · rw [if_neg hc]
      calc acc.length ≤ (acc ++ [c]).length := by simp
        _ ≤ _ := ih (acc ++ [c])

theorem contribBgrs_cons_of_contrib (tc : RGBA32) (p : RGBA32)
    (ps : List RGBA32) (h : contributes tc p = true) :
    contribBgrs tc (p :: ps) = rgbaToBgr p :: contribBgrs tc ps := by
  simp [contribBgrs, List.filter_cons, h]

theorem contribBgrs_cons_of_not_contrib (tc : RGBA32) (p : RGBA32)
    (ps : List RGBA32) (h : contributes tc p = false) :
    contribBgrs tc (p :: ps) = contribBgrs tc ps := by
  simp [contribBgrs, List.filter_cons, h]

theorem contributes_of_transparent (tc : RGBA32) (p : RGBA32)
    (h : transparentPix tc p = true) : contributes tc p = false := by
  simp only [transparentPix] at h
  simp [contributes, h]

theorem contributes_of_opaque (tc : RGBA32) (p : RGBA32)
    (h1 : transparentPix tc p = false) (h2 : p.alpha = ALPHA_OPAQUE) :
    contributes tc p = true := by
  simp only [transparentPix, Bool.or_eq_false_iff, decide_eq_false_iff_not] at h1
  have ha : ¬(p.alpha = 0) := by simpa [ALPHA_TRANSPARENT] using h1.1
  have hb : p.alpha = 255 := by simpa [ALPHA_OPAQUE] using h2
  simp [contributes, ha, h1.2, hb, ALPHA_TRANSPARENT, ALPHA_OPAQUE]

theorem validAlphaPix_of_transparent (tc : RGBA32) (p : RGBA32)
    (h : transparentPix tc p = true) : validAlphaPix tc p = true := by
  simp only [transparentPix, Bool.or_eq_true] at h
  rcases h with h | h <;> simp [validAlphaPix, h]

theorem validAlphaPix_of_opaque (tc : RGBA32) (p : RGBA32)
    (h : p.alpha = ALPHA_OPAQUE) : validAlphaPix tc p = true := by
  simp [validAlphaPix, h]

theorem validAlphaPix_false_iff (tc : RGBA32) (p : RGBA32) :
    validAlphaPix tc p = false ↔
      (transparentPix tc p = false ∧ ¬(p.alpha = ALPHA_OPAQUE)) := by
  simp only [validAlphaPix, transparentPix, Bool.or_eq_false_iff,
    decide_eq_false_iff_not]

theorem insertFold_ok_iff (tc : RGBA32) :
    ∀ (colors : List RGBA32) (c0 : BGR15) (ds : List BGR15) (buf : List Nat),
    ds.length ≤ 15 →
    (insertFold tc (⟨c0 :: ds⟩, buf) colors).isOk =
      (colors.all (validAlphaPix tc) &&
        decide ((dedupAppend ds (contribBgrs tc colors)).length ≤ 15)) := by
  intro colors
  induction colors with
  | nil =>
    intro c0 ds buf hds
    simp [insertFold_nil, Except.isOk, Except.toBool, contribBgrs, dedupAppend, hds]
  | cons p ps ih =>
    intro c0 ds buf hds
    rw [insertFold_cons]
    by_cases htr : transparentPix tc p = true
    · rw [insertRGBA_of_transparent tc _ p htr]
      rw [ih c0 ds _ hds]
      rw [contribBgrs_cons_of_not_contrib tc p ps (contributes_of_transparent tc p htr)]
      rw [List.all_cons, validAlphaPix_of_transparent tc p htr]
      simp
    · have htr2 : transparentPix tc p = false := Bool.of_not_eq_true htr
      by_cases hop : p.alpha = ALPHA_OPAQUE
      · have hcontrib := contributes_of_opaque tc p htr2 hop
        rw [contribBgrs_cons_of_contrib tc p ps hcontrib]
        rw [List.all_cons, validAlphaPix_of_opaque tc p hop, Bool.true_and]
        have hdd : dedupAppend ds (rgbaToBgr p :: contribBgrs tc ps) =
            dedupAppend (if rgbaToBgr p ∈ ds then ds else ds ++ [rgbaToBgr p])
              (contribBgrs tc ps) := dedupAppend_cons ds (rgbaToBgr p) (contribBgrs tc ps)
        cases hF : ds.findIdx? (fun c => c = rgbaToBgr p) with
        | some j =>
          have hmem : rgbaToBgr p ∈ ds := by
            by_contra hnm
            have hnone : ds.findIdx? (fun c => c = rgbaToBgr p) = none := by
              rw [List.findIdx?_eq_none_iff]
              intro x hx
              simp only [decide_eq_false_iff_not]
              intro hE
              exact hnm (hE ▸ hx)
            rw [hnone] at hF
            exact Option.noConfusion hF
          rw [insertRGBA_of_found tc ⟨c0 :: ds⟩ p j htr2 hop (by simpa using hF)]
          rw [hdd, if_pos hmem]
          exact ih c0 ds _ hds
        | none =>
          have hnmem : ¬(rgbaToBgr p ∈ ds) := by
            intro hmem
            have := List.findIdx?_eq_none_iff.mp hF _ hmem
            simp at this
          rw [hdd, if_neg hnmem]
          by_cases hfull : ds.length = 15
          · rw [insertRGBA_of_full tc ⟨c0 :: ds⟩ p htr2 hop (by simpa using hF)
              (by simp [PAL_SIZE, hfull])]
            have hge : 16 ≤ (dedupAppend (ds ++ [rgbaToBgr p]) (contribBgrs tc ps)).length := by
              have := dedupAppend_length_le (contribBgrs tc ps) (ds ++ [rgbaToBgr p])
              simp [hfull] at this
              omega
            simp [Except.isOk, Except.toBool]
            omega
          · rw [insertRGBA_of_new tc ⟨c0 :: ds⟩ p htr2 hop (by simpa using hF)
              (by simp [PAL_SIZE]; omega)]
            have hds2 : (ds ++ [rgbaToBgr p]).length ≤ 15 := by simp; omega
            have := ih c0 (ds ++ [rgbaToBgr p]) (buf ++ [(⟨c0 :: ds⟩ : NormalizedPalette).colors.length]) hds2
            simpa using this
      · rw [insertRGBA_of_badAlpha tc ⟨c0 :: ds⟩ p htr2 hop]
        have hbad : validAlphaPix tc p = false :=
          (validAlphaPix_false_iff tc p).mpr ⟨htr2, hop⟩
        simp [Except.isOk, Except.toBool, hbad]

theorem insertFold_length (tc : RGBA32) :
    ∀ (colors : List RGBA32) (s : NormalizedPalette × List Nat)
      (pal2 : NormalizedPalette) (buf2 : List Nat),
    insertFold tc s colors = Except.ok (pal2, buf2) →
    buf2.length = s.2.length + colors.length := by
  intro colors
  induction colors with
  | nil =>
    intro s pal2 buf2 hok
    rw [insertFold_nil] at hok
    cases hok
    simp
  | cons p ps ih =>
    intro s pal2 buf2 hok
    rw [insertFold_cons] at hok
    cases hI : insertRGBA tc s.1 p with
    | error e => rw [hI] at hok; exact Except.noConfusion hok
    | ok r =>
      rw [hI] at hok
      have := ih (r.1, s.2 ++ [r.2]) pal2 buf2 hok
      simp at this ⊢
      omega

theorem insertFold_allzero (tc : RGBA32) :
    ∀ (colors : List RGBA32) (c0 : BGR15) (ds : List BGR15) (buf : List Nat)
      (pal2 : NormalizedPalette) (buf2 : List Nat),
    insertFold tc (⟨c0 :: ds⟩, buf) colors = Except.ok (pal2, buf2) →
    buf2.all (fun i => i = 0) =
      (buf.all (fun i => i = 0) && colors.all (transparentPix tc)) := by
  intro colors
  induction colors with
  | nil =>
    intro c0 ds buf pal2 buf2 hok
    rw [insertFold_nil] at hok
    cases hok
    simp
  | cons p ps ih =>
    intro c0 ds buf pal2 buf2 hok
    rw [insertFold_cons] at hok
    by_cases htr : transparentPix tc p = true
    · rw [insertRGBA_of_transparent tc _ p htr] at hok
      have := ih c0 ds (buf ++ [0]) pal2 buf2 hok
      rw [this, List.all_cons, htr]
      simp
    · have htr2 : transparentPix tc p = false := Bool.of_not_eq_true htr
      by_cases hop : p.alpha = ALPHA_OPAQUE
      · cases hF : ds.findIdx? (fun c => c = rgbaToBgr p) with
        | some j =>
          rw [insertRGBA_of_found tc ⟨c0 :: ds⟩ p j htr2 hop (by simpa using hF)] at hok
          have := ih c0 ds (buf ++ [j + 1]) pal2 buf2 hok
          rw [this, List.all_cons, htr2]
          simp
        | none =>
          by_cases hfull : (⟨c0 :: ds⟩ : NormalizedPalette).colors.length = PAL_SIZE
          · rw [insertRGBA_of_full tc ⟨c0 :: ds⟩ p htr2 hop (by simpa using hF) hfull] at hok
            exact Except.noConfusion hok
          · rw [insertRGBA_of_new tc ⟨c0 :: ds⟩ p htr2 hop (by simpa using hF) hfull] at hok
            have := ih c0 (ds ++ [rgbaToBgr p])
              (buf ++ [(⟨c0 :: ds⟩ : NormalizedPalette).colors.length]) pal2 buf2 (by simpa using hok)
            rw [this, List.all_cons, htr2]
            simp
      · rw [insertRGBA_of_badAlpha tc ⟨c0 :: ds⟩ p htr2 hop] at hok
        exact Except.noConfusion hok

theorem insertFold_error_forms (tc : RGBA32) :
    ∀ (colors : List RGBA32) (s : NormalizedPalette × List Nat) (e : String),
    insertFold tc s colors = Except.error e →
    (∃ p, p ∈ colors ∧ validAlphaPix tc p = false ∧
      e = "invalid alpha value: " ++ toString p.alpha) ∨
    e = "too many unique colors in tile" := by
  intro colors
  induction colors with
  | nil =>
    intro s e herr
    rw [insertFold_nil] at herr
    exact Except.noConfusion herr
  | cons p ps ih =>
    intro s e herr
    rw [insertFold_cons] at herr
    by_cases htr : transparentPix tc p = true
    · rw [insertRGBA_of_transparent tc _ p htr] at herr
      rcases ih _ e herr with ⟨q, hq, hv, he⟩ | he
      · exact Or.inl ⟨q, List.mem_cons_of_mem p hq, hv, he⟩
      · exact Or.inr he
    · have htr2 : transparentPix tc p = false := Bool.of_not_eq_true htr
      by_cases hop : p.alpha = ALPHA_OPAQUE
      · cases hF : (s.1.colors.drop 1).findIdx? (fun c => c = rgbaToBgr p) with
        | some j =>
          rw [insertRGBA_of_found tc s.1 p j htr2 hop hF] at herr
          rcases ih _ e herr with ⟨q, hq, hv, he⟩ | he
          · exact Or.inl ⟨q, List.mem_cons_of_mem p hq, hv, he⟩
          · exact Or.inr he
        | none =>
          by_cases hfull : s.1.colors.length = PAL_SIZE
          · rw [insertRGBA_of_full tc s.1 p htr2 hop hF hfull] at herr
            cases herr
            exact Or.inr rfl
          · rw [insertRGBA_of_new tc s.1 p htr2 hop hF hfull] at herr
            rcases ih _ e herr with ⟨q, hq, hv, he⟩ | he
            · exact Or.inl ⟨q, List.mem_cons_of_mem p hq, hv, he⟩
            · exact Or.inr he
      · rw [insertRGBA_of_badAlpha tc s.1 p htr2 hop] at herr
        cases herr
        exact Or.inl ⟨p, List.mem_cons_self p ps,
          (validAlphaPix_false_iff tc p).mpr ⟨htr2, hop⟩, rfl⟩

/-! Deduplication counts distinct colors. -/

theorem dedupAppend_nodup (l acc : List BGR15) (hacc : acc.Nodup) :
    (dedupAppend acc l).Nodup := by
  induction l generalizing acc with
  | nil => simpa [dedupAppend] using hacc
  | cons c cs ih =>
    rw [dedupAppend_cons]
    by_cases hc : c ∈ acc
    · rw [if_pos hc]; exact ih acc hacc
    · rw [if_neg hc]
      refine ih (acc ++ [c]) ?_
      simp [List.nodup_append, hacc, hc]

theorem dedupAppend_toFinset (l acc : List BGR15) :
    (dedupAppend acc l).toFinset = acc.toFinset ∪ l.toFinset := by
  induction l generalizing acc with
  | nil => simp [dedupAppend]
  | cons c cs ih =>
    rw [dedupAppend_cons]
    by_cases hc : c ∈ acc
    · rw [if_pos hc, ih acc]
      ext x
      simp only [Finset.mem_union, List.mem_toFinset, List.mem_cons]
      constructor
      · rintro (hx | hx)
        · exact Or.inl hx
        · exact Or.inr (Or.inr hx)
      · rintro (hx | hx | hx)
        · exact Or.inl hx
        · exact Or.inl (hx ▸ hc)
        · exact Or.inr hx
    · rw [if_neg hc, ih (acc ++ [c])]
      ext x
      simp only [Finset.mem_union, List.mem_toFinset, List.mem_append,
        List.mem_cons, List.mem_singleton]
      tauto

theorem firstDedup_length_eq_card (l : List BGR15) :
    (firstDedup l).length = l.toFinset.card := by
  have h1 : (firstDedup l).Nodup := dedupAppend_nodup l [] (by simp)
  have h2 : (firstDedup l).toFinset = l.toFinset := by
    rw [firstDedup, dedupAppend_toFinset]
    simp
  rw [← List.toFinset_card_of_nodup h1, h2]

/-! Lifting the fold characterizations to `candidate` and `normalize`. -/

theorem bool_eq_of_iff (a b : Bool) (h : a = true ↔ b = true) : a = b := by
  cases a <;> cases b <;> simp_all

theorem candidate_ok_parts (tc : RGBA32) (t : RGBATile) (hf vf : Bool)
    (r : NormalizedTile) (h : candidate tc t hf vf = Except.ok r) :
    buildNormalized tc (candidatePixels t hf vf) = Except.ok (r.palette, r.pixels) ∧
      r.hFlip = hf ∧ r.vFlip = vf := by
  unfold candidate at h
  cases hB : buildNormalized tc (candidatePixels t hf vf) with
  | error e =>
    rw [hB] at h
    simp [Bind.bind, Except.bind] at h
  | ok s =>
    rw [hB] at h
    simp only [Bind.bind, Except.bind, Pure.pure, Except.pure, Except.ok.injEq] at h
    rw [← h]
    exact ⟨rfl, rfl, rfl⟩

theorem candidate_ok_of_build (tc : RGBA32) (t : RGBATile) (hf vf : Bool)
    (s : NormalizedPalette × List Nat)
    (h : buildNormalized tc (candidatePixels t hf vf) = Except.ok s) :
    candidate tc t hf vf = Except.ok ⟨s.2, s.1, hf, vf⟩ := by
  unfold candidate
  rw [h]
  simp [Bind.bind, Except.bind, Pure.pure, Except.pure]

theorem candidate_isOk (tc : RGBA32) (t : RGBATile) (hf vf : Bool) :
    (candidate tc t hf vf).isOk =
      (buildNormalized tc (candidatePixels t hf vf)).isOk := by
  unfold candidate
  cases hB : buildNormalized tc (candidatePixels t hf vf) <;>
    simp [hB, Bind.bind, Except.bind, Pure.pure, Except.pure, Except.isOk,
      Except.toBool]

theorem candidate_isOk_iff (tc : RGBA32) (t : RGBATile) (hf vf : Bool) :
    (candidate tc t hf vf).isOk =
      ((candidatePixels t hf vf).all (validAlphaPix tc) &&
        decide ((firstDedup (contribBgrs tc (candidatePixels t hf vf))).length ≤ 15)) := by
  rw [candidate_isOk]
  unfold buildNormalized initNormalizedPalette
  exact insertFold_ok_iff tc (candidatePixels t hf vf) (rgbaToBgr tc) [] []
    (by simp)

theorem scan_all_flip (t : RGBATile) (P : RGBA32 → Bool) (hf vf : Bool) :
    (candidatePixels t hf vf).all P = (candidatePixels t false false).all P := by
  apply bool_eq_of_iff
  rw [all_scan_iff, all_scan_iff]

theorem contrib_toFinset_flip (tc : RGBA32) (t : RGBATile) (hf vf : Bool) :
    (contribBgrs tc (candidatePixels t hf vf)).toFinset =
      (contribBgrs tc (candidatePixels t false false)).toFinset := by
  ext x
  simp only [contribBgrs, List.mem_toFinset, List.mem_map, List.mem_filter]
  constructor
  · rintro ⟨p, ⟨hp, hc⟩, hx⟩
    obtain ⟨r, c, hr, hc2, hpx⟩ := (mem_scan_iff t p hf vf).mp hp
    exact ⟨p, ⟨(mem_scan_iff t p false false).mpr ⟨r, c, hr, hc2, hpx⟩, hc⟩, hx⟩
  · rintro ⟨p, ⟨hp, hc⟩, hx⟩
    obtain ⟨r, c, hr, hc2, hpx⟩ := (mem_scan_iff t p false false).mp hp
    exact ⟨p, ⟨(mem_scan_iff t p hf vf).mpr ⟨r, c, hr, hc2, hpx⟩, hc⟩, hx⟩

theorem contrib_count_flip (tc : RGBA32) (t : RGBATile) (hf vf : Bool) :
    (firstDedup (contribBgrs tc (candidatePixels t hf vf))).length =
      (firstDedup (contribBgrs tc (candidatePixels t false false))).length := by
  rw [firstDedup_length_eq_card, firstDedup_length_eq_card,
    contrib_toFinset_flip]

theorem candidate_isOk_flip (tc : RGBA32) (t : RGBATile) (hf vf : Bool) :
    (candidate tc t hf vf).isOk = (candidate tc t false false).isOk := by
  rw [candidate_isOk_iff, candidate_isOk_iff, scan_all_flip,
    contrib_count_flip]

theorem normalize_ok_cases (tc : RGBA32) (t : RGBATile) (r : NormalizedTile)
    (h : normalize tc t = Except.ok r) :
    ∃ c0, candidate tc t false false = Except.ok c0 ∧
      ((c0.transparent = true ∧ r = c0) ∨
       (c0.transparent = false ∧ ∃ c1 c2 c3,
         candidate tc t true false = Except.ok c1 ∧
         candidate tc t false true = Except.ok c2 ∧
         candidate tc t true true = Except.ok c3 ∧
         r = minPixelTile c0 [c1, c2, c3])) := by
  unfold normalize at h
  cases hc0 : candidate tc t false false with
  | error e => rw [hc0] at h; dsimp only at h; exact Except.noConfusion h
  | ok c0 =>
    rw [hc0] at h; dsimp only at h
    by_cases ht : c0.transparent = true
    · rw [if_pos ht] at h
      have hrc : r = c0 := by
        injection h with h2
        exact h2.symm
      exact ⟨c0, rfl, Or.inl ⟨ht, hrc⟩⟩
    · have ht2 : c0.transparent = false := Bool.of_not_eq_true ht
      rw [if_neg ht] at h
      cases hc1 : candidate tc t true false with
      | error e => rw [hc1] at h; dsimp only at h; exact Except.noConfusion h
      | ok c1 =>
        rw [hc1] at h; dsimp only at h
        cases hc2 : candidate tc t false true with
        | error e => rw [hc2] at h; dsimp only at h; exact Except.noConfusion h
        | ok c2 =>
          rw [hc2] at h; dsimp only at h
          cases hc3 : candidate tc t true true with
          | error e => rw [hc3] at h; dsimp only at h; exact Except.noConfusion h
          | ok c3 =>
            rw [hc3] at h; dsimp only at h
            have hrc : r = minPixelTile c0 [c1, c2, c3] := by
              injection h with h2
              exact h2.symm
            exact ⟨c0, rfl, Or.inr ⟨ht2, c1, c2, c3, rfl, rfl, rfl, hrc⟩⟩

theorem normalize_isOk (tc : RGBA32) (t : RGBATile) :
    (normalize tc t).isOk = (candidate tc t false false).isOk := by
  unfold normalize
  cases hc0 : candidate tc t false false with
  | error e => simp [Except.isOk, Except.toBool]
  | ok c0 =>
    dsimp only
    by_cases ht : c0.transparent = true
    · simp [if_pos ht, Except.isOk, Except.toBool]
    · rw [if_neg ht]
      have h1 : (candidate tc t true false).isOk = true := by
        rw [candidate_isOk_flip, hc0]; rfl
      have h2 : (candidate tc t false true).isOk = true := by
        rw [candidate_isOk_flip, hc0]; rfl
      have h3 : (candidate tc t true true).isOk = true := by
        rw [candidate_isOk_flip, hc0]; rfl
      cases hc1 : candidate tc t true false with
      | error e => rw [hc1] at h1; exact absurd h1 (by simp [Except.isOk, Except.toBool])
      | ok c1 =>
        cases hc2 : candidate tc t false true with
        | error e => rw [hc2] at h2; exact absurd h2 (by simp [Except.isOk, Except.toBool])
        | ok c2 =>
          cases hc3 : candidate tc t true true with
          | error e => rw [hc3] at h3; exact absurd h3 (by simp [Except.isOk, Except.toBool])
          | ok c3 => simp [Except.isOk, Except.toBool]

theorem normalize_error_sources (tc : RGBA32) (t : RGBATile) (e : String)
    (h : normalize tc t = Except.error e) :
    ∃ hf vf, candidate tc t hf vf = Except.error e := by
  unfold normalize at h
  cases hc0 : candidate tc t false false with
  | error e0 =>
    rw [hc0] at h; dsimp only at h
    cases h
    exact ⟨false, false, hc0⟩
  | ok c0 =>
    rw [hc0] at h; dsimp only at h
    by_cases ht : c0.transparent = true
    · rw [if_pos ht] at h; exact Except.noConfusion h
    · rw [if_neg ht] at h
      cases hc1 : candidate tc t true false with
      | error e1 =>
        rw [hc1] at h; dsimp only at h
        cases h
        exact ⟨true, false, hc1⟩
      | ok c1 =>
        rw [hc1] at h; dsimp only at h
        cases hc2 : candidate tc t false true with
        | error e2 =>
          rw [hc2] at h; dsimp only at h
          cases h
          exact ⟨false, true, hc2⟩
        | ok c2 =>
          rw [hc2] at h; dsimp only at h
          cases hc3 : candidate tc t true true with
          | error e3 =>
            rw [hc3] at h; dsimp only at h
            cases h
            exact ⟨true, true, hc3⟩
          | ok c3 =>
            rw [hc3] at h; dsimp only at h
            exact Except.noConfusion h

theorem candidate_error_build (tc : RGBA32) (t : RGBATile) (hf vf : Bool)
    (e : String) (h : candidate tc t hf vf = Except.error e) :
    buildNormalized tc (candidatePixels t hf vf) = Except.error e := by
  unfold candidate at h
  cases hB : buildNormalized tc (candidatePixels t hf vf) with
  | error e2 =>
    rw [hB] at h
    simp only [Bind.bind, Except.bind, Except.error.injEq] at h
    rw [h]
  | ok s =>
    rw [hB] at h
    simp [Bind.bind, Except.bind, Pure.pure, Except.pure] at h

theorem except_ok_of_toOption {α : Type} (x : Except String α) (v : α)
    (h : x.toOption = some v) : x = Except.ok v := by
  cases x with
  | error e => simp [Except.toOption] at h
  | ok w =>
    simp only [Except.toOption, Option.some.injEq] at h
    rw [h]

/-- C2: when `normalize` succeeds, it has built the four flip candidates
(reversing column indices when hFlipped and row indices when vFlipped, as
`candidate` does); if the no-flips candidate's 64-pixel buffer is
all-transparent it is returned immediately, and otherwise the result is one
of the four candidates — carrying that candidate's hFlip/vFlip flags and
its first-appearance-order palette — whose 64-entry pixel buffer is
lexicographically smallest among all the candidates. -/
theorem normalize_lex_min (tc : RGBA32) (t : RGBATile) (r : NormalizedTile)
    (hok : normalize tc t = Except.ok r) :
    ∃ c0, candidate tc t false false = Except.ok c0 ∧
      (c0.transparent = true → r = c0) ∧
      (c0.transparent = false →
        (∃ hf vf, candidate tc t hf vf = Except.ok r) ∧
        ∀ hf vf r2, candidate tc t hf vf = Except.ok r2 →
          lexLt r2.pixels r.pixels = false) := by
  obtain ⟨c0, hc0, hcases⟩ := normalize_ok_cases tc t r hok
  refine ⟨c0, hc0, ?_, ?_⟩
  · intro ht
    rcases hcases with ⟨_, hr⟩ | ⟨ht2, _⟩
    · exact hr
    · rw [ht] at ht2
      exact absurd ht2 (by simp)
  · intro ht
    rcases hcases with ⟨ht2, _⟩ | ⟨_, c1, c2, c3, hc1, hc2, hc3, hr⟩
    · rw [ht] at ht2
      exact absurd ht2 (by simp)
    constructor
    · subst hr
      rcases minPixelTile_mem [c1, c2, c3] c0 with hm | hm
      · exact ⟨false, false, by rw [hm]; exact hc0⟩
      · simp only [List.mem_cons, List.not_mem_nil, or_false] at hm
        rcases hm with hm | hm | hm
        · exact ⟨true, false, by rw [hm]; exact hc1⟩
        · exact ⟨false, true, by rw [hm]; exact hc2⟩
        · exact ⟨true, true, by rw [hm]; exact hc3⟩
    · intro hf vf r2 hr2
      subst hr
      cases hf <;> cases vf
      · rw [hc0] at hr2
        injection hr2 with h2
        rw [← h2]
        exact minPixelTile_le [c1, c2, c3] c0 c0 (Or.inl rfl)
      · rw [hc2] at hr2
        injection hr2 with h2
        rw [← h2]
        exact minPixelTile_le [c1, c2, c3] c0 c2 (Or.inr (by simp))
      · rw [hc1] at hr2
        injection hr2 with h2
        rw [← h2]
        exact minPixelTile_le [c1, c2, c3] c0 c1 (Or.inr (by simp))
      · rw [hc3] at hr2
        injection hr2 with h2
        rw [← h2]
        exact minPixelTile_le [c1, c2, c3] c0 c3 (Or.inr (by simp))

/-- Witness for C2: the stripe tile normalizes successfully and the
conclusion of `normalize_lex_min` holds there. -/
theorem normalize_lex_min_witness :
    normalize RGBA_MAGENTA stripeTile = Except.ok stripeNormResult ∧
    (∃ c0, candidate RGBA_MAGENTA stripeTile false false = Except.ok c0 ∧
      (c0.transparent = true → stripeNormResult = c0) ∧
      (c0.transparent = false →
        (∃ hf vf, candidate RGBA_MAGENTA stripeTile hf vf =
          Except.ok stripeNormResult) ∧
        ∀ hf vf r2, candidate RGBA_MAGENTA stripeTile hf vf = Except.ok r2 →
          lexLt r2.pixels stripeNormResult.pixels = false)) := by
  have hok : normalize RGBA_MAGENTA stripeTile = Except.ok stripeNormResult :=
    except_ok_of_toOption _ _ (by decide)
  exact ⟨hok, normalize_lex_min RGBA_MAGENTA stripeTile stripeNormResult hok⟩

/-- C9: among candidates tying on the lexicographically smallest buffer,
`normalize` returns the earliest in the fixed enumeration order (no flips,
hFlip, vFlip, both): the result is the candidate at some position `k` of
`flipPairs`, and every earlier candidate has a strictly greater buffer. -/
theorem normalize_tiebreak_first (tc : RGBA32) (t : RGBATile)
    (r c0 : NormalizedTile) (hok : normalize tc t = Except.ok r)
    (hc0 : candidate tc t false false = Except.ok c0)
    (ht : c0.transparent = false) :
    ∃ k, k < 4 ∧
      candidate tc t ((flipPairs.getD k (false, false)).1)
        ((flipPairs.getD k (false, false)).2) = Except.ok r ∧
      ∀ j rj, j < k →
        candidate tc t ((flipPairs.getD j (false, false)).1)
          ((flipPairs.getD j (false, false)).2) = Except.ok rj →
        lexLt r.pixels rj.pixels = true := by
  obtain ⟨c0b, hc0b, hcases⟩ := normalize_ok_cases tc t r hok
  rw [hc0] at hc0b
  injection hc0b with hc0eq
  subst hc0eq
  rcases hcases with ⟨ht2, _⟩ | ⟨_, c1, c2, c3, hc1, hc2, hc3, hr⟩
  · rw [ht] at ht2
    exact absurd ht2 (by simp)
  obtain ⟨k, hklen, hkeq, hkmin⟩ := minPixelTile_first [c1, c2, c3] c0
  have hk4 : k < 4 := by simpa using hklen
  refine ⟨k, hk4, ?_, ?_⟩
  · subst hr
    interval_cases k
    · rw [hkeq]; exact hc0
    · rw [hkeq]; exact hc1
    · rw [hkeq]; exact hc2
    · rw [hkeq]; exact hc3
  · intro j rj hj hrj
    subst hr
    have hj3 : j < 4 := by omega
    have hgoal : lexLt (minPixelTile c0 [c1, c2, c3]).pixels
        (((c0 :: [c1, c2, c3]).getD j c0).pixels) = true := hkmin j hj
    interval_cases j
    · simp only [flipPairs, List.getD_cons_zero] at hrj
      rw [hc0] at hrj
      injection hrj with h2
      rw [← h2]
      simpa using hgoal
    · simp only [flipPairs, List.getD_cons_zero, List.getD_cons_succ] at hrj
      rw [hc1] at hrj
      injection hrj with h2
      rw [← h2]
      simpa using hgoal
    · simp only [flipPairs, List.getD_cons_zero, List.getD_cons_succ] at hrj
      rw [hc2] at hrj
      injection hrj with h2
      rw [← h2]
      simpa using hgoal
    · simp only [flipPairs, List.getD_cons_zero, List.getD_cons_succ] at hrj
      rw [hc3] at hrj
      injection hrj with h2
      rw [← h2]
      simpa using hgoal

/-- Witness for C9: the corner tile (red top-left pixel, blue elsewhere)
ties nowhere, its normal form is the both-flips candidate, and the
conclusion of `normalize_tiebreak_first` holds there. -/
theorem normalize_tiebreak_first_witness :
    normalize RGBA_MAGENTA cornerTile = Except.ok cornerNormResult ∧
    candidate RGBA_MAGENTA cornerTile false false = Except.ok cornerNoFlips ∧
    cornerNoFlips.transparent = false ∧
    (∃ k, k < 4 ∧
      candidate RGBA_MAGENTA cornerTile ((flipPairs.getD k (false, false)).1)
        ((flipPairs.getD k (false, false)).2) = Except.ok cornerNormResult ∧
      ∀ j rj, j < k →
        candidate RGBA_MAGENTA cornerTile ((flipPairs.getD j (false, false)).1)
          ((flipPairs.getD j (false, false)).2) = Except.ok rj →
        lexLt cornerNormResult.pixels rj.pixels = true) := by
  have hok : normalize RGBA_MAGENTA cornerTile = Except.ok cornerNormResult :=
    except_ok_of_toOption _ _ (by decide)
  have hc0 : candidate RGBA_MAGENTA cornerTile false false = Except.ok cornerNoFlips :=
    except_ok_of_toOption _ _ (by decide)
  exact ⟨hok, hc0, by decide,
    normalize_tiebreak_first RGBA_MAGENTA cornerTile cornerNormResult
      cornerNoFlips hok hc0 (by decide)⟩

/-! Characterizing when `normalize` throws (C8). -/

theorem candidatePixels_id (t : RGBATile) (hlen : t.pixels.length = TILE_NUM_PIX) :
    candidatePixels t false false = t.pixels := by
  apply List.ext_getElem
  · simp [candidatePixels, hlen]
  · intro i h1 h2
    have hi : i < 64 := by
      simpa [candidatePixels, TILE_NUM_PIX] using h1
    simp only [candidatePixels, TILE_SIDE_LENGTH, TILE_NUM_PIX,
      List.getElem_map, List.getElem_range, RGBATile.getPixel]
    norm_num
    have hidx : i / 8 * 8 + i % 8 = i := by omega
    rw [hidx, List.getElem?_eq_getElem h2]
    rfl

theorem scan_mem_pixels (t : RGBATile) (p : RGBA32) (hf vf : Bool)
    (hlen : t.pixels.length = TILE_NUM_PIX)
    (hp : p ∈ candidatePixels t hf vf) : p ∈ t.pixels := by
  obtain ⟨r, c, hr, hc, hpx⟩ := (mem_scan_iff t p hf vf).mp hp
  rw [RGBATile.getPixel] at hpx
  have hidx : r * TILE_SIDE_LENGTH + c < t.pixels.length := by
    simp only [TILE_SIDE_LENGTH]
    rw [hlen]
    simp only [TILE_NUM_PIX]
    omega
  rw [List.getD_eq_getElem t.pixels _ hidx] at hpx
  rw [← hpx]
  exact List.getElem_mem hidx

theorem valid_eq_not_bad (tc : RGBA32) (htc : tc.alpha = ALPHA_OPAQUE)
    (p : RGBA32) : validAlphaPix tc p = !(badAlpha p) := by
  by_cases hp : p = tc
  · subst hp
    simp [validAlphaPix, badAlpha, htc]
  · have hptc : decide (p = tc) = false := by simp [hp]
    simp only [validAlphaPix, badAlpha, hptc, Bool.or_false,
      Bool.not_and, Bool.not_not]

/-- C8: with an opaque transparency color, `normalize` throws exactly when
some pixel of the tile has an alpha that is neither transparent nor opaque,
or the tile needs a sixteenth unique non-transparent color; and every
thrown message is either "invalid alpha value: N" for an offending pixel of
alpha N, or "too many unique colors in tile". In particular a tile with
exactly fifteen unique non-transparent colors succeeds. -/
theorem normalize_throw_characterization (tc : RGBA32) (t : RGBATile)
    (htc : tc.alpha = ALPHA_OPAQUE) (hlen : t.pixels.length = TILE_NUM_PIX) :
    ((normalize tc t).isOk = false ↔
      ((∃ p, p ∈ t.pixels ∧ badAlpha p = true) ∨
        15 < (firstDedup (contribBgrs tc t.pixels)).length)) ∧
    ∀ e, normalize tc t = Except.error e →
      ((∃ p, p ∈ t.pixels ∧ badAlpha p = true ∧
        e = "invalid alpha value: " ++ toString p.alpha) ∨
      e = "too many unique colors in tile") := by
  constructor
  · rw [normalize_isOk, candidate_isOk_iff, candidatePixels_id t hlen]
    constructor
    · intro h
      by_cases hall : t.pixels.all (validAlphaPix tc) = true
      · right
        rw [hall, Bool.true_and, decide_eq_false_iff_not] at h
        omega
      · left
        have hall2 : t.pixels.all (validAlphaPix tc) = false :=
          Bool.of_not_eq_true hall
        rw [List.all_eq_false] at hall2
        obtain ⟨p, hp, hv⟩ := hall2
        refine ⟨p, hp, ?_⟩
        have hvb := valid_eq_not_bad tc htc p
        rw [hvb] at hv
        simp at hv
        exact hv
    · intro h
      rcases h with ⟨p, hp, hbad⟩ | hcount
      · have hv : validAlphaPix tc p = false := by
          rw [valid_eq_not_bad tc htc p, hbad]
          rfl
        have hall : t.pixels.all (validAlphaPix tc) = false := by
          rw [List.all_eq_false]
          exact ⟨p, hp, by simp [hv]⟩
        rw [hall, Bool.false_and]
      · have hd : decide ((firstDedup (contribBgrs tc t.pixels)).length ≤ 15) = false := by
          simp
          omega
        rw [hd, Bool.and_false]
  · intro e herr
    obtain ⟨hf, vf, hce⟩ := normalize_error_sources tc t e herr
    have hbe := candidate_error_build tc t hf vf e hce
    unfold buildNormalized at hbe
    rcases insertFold_error_forms tc (candidatePixels t hf vf)
        (initNormalizedPalette tc, []) e hbe with ⟨p, hp, hv, he⟩ | he
    · left
      refine ⟨p, scan_mem_pixels t p hf vf hlen hp, ?_, he⟩
      rw [valid_eq_not_bad tc htc p] at hv
      simp at hv
      exact hv
    · right
      exact he

/-- Witness for C8 at the fifteen-color boundary tile: the hypotheses hold
concretely and the characterization applies; by the iff, this tile (with
exactly fifteen unique non-transparent colors and no bad alpha) compiles. -/
theorem normalize_throw_characterization_witness :
    RGBA_MAGENTA.alpha = ALPHA_OPAQUE ∧
    fifteenTile.pixels.length = TILE_NUM_PIX ∧
    (((normalize RGBA_MAGENTA fifteenTile).isOk = false ↔
      ((∃ p, p ∈ fifteenTile.pixels ∧ badAlpha p = true) ∨
        15 < (firstDedup (contribBgrs RGBA_MAGENTA fifteenTile.pixels)).length)) ∧
    ∀ e, normalize RGBA_MAGENTA fifteenTile = Except.error e →
      ((∃ p, p ∈ fifteenTile.pixels ∧ badAlpha p = true ∧
        e = "invalid alpha value: " ++ toString p.alpha) ∨
      e = "too many unique colors in tile")) :=
  ⟨by decide, by decide,
    normalize_throw_characterization RGBA_MAGENTA fifteenTile (by decide)
      (by decide)⟩

/-! Normalization and flips (C3). -/

theorem candidate_pixels_length (tc : RGBA32) (t : RGBATile) (hf vf : Bool)
    (r : NormalizedTile) (h : candidate tc t hf vf = Except.ok r) :
    r.pixels.length = 64 := by
  obtain ⟨hb, _, _⟩ := candidate_ok_parts tc t hf vf r h
  unfold buildNormalized at hb
  have := insertFold_length tc (candidatePixels t hf vf)
    (initNormalizedPalette tc, []) r.palette r.pixels hb
  simpa [candidatePixels, TILE_NUM_PIX] using this

theorem candidate_transparent_flip (tc : RGBA32) (t : RGBATile) (hf vf : Bool)
    (c0 cx : NormalizedTile)
    (h0 : candidate tc t false false = Except.ok c0)
    (hx : candidate tc t hf vf = Except.ok cx) :
    cx.transparent = c0.transparent := by
  obtain ⟨hb0, _, _⟩ := candidate_ok_parts tc t false false c0 h0
  obtain ⟨hbx, _, _⟩ := candidate_ok_parts tc t hf vf cx hx
  unfold buildNormalized initNormalizedPalette at hb0 hbx
  have e0 := insertFold_allzero tc (candidatePixels t false false)
    (rgbaToBgr tc) [] [] c0.palette c0.pixels hb0
  have ex := insertFold_allzero tc (candidatePixels t hf vf)
    (rgbaToBgr tc) [] [] cx.palette cx.pixels hbx
  rw [NormalizedTile.transparent, NormalizedTile.transparent, e0, ex]
  simp only [List.all_nil, Bool.true_and]
  exact scan_all_flip t (transparentPix tc) hf vf

theorem minPixelTile_le_mem (first : NormalizedTile)
    (rest : List NormalizedTile) (x : NormalizedTile)
    (hx : x ∈ first :: rest) :
    lexLt x.pixels (minPixelTile first rest).pixels = false := by
  rcases List.mem_cons.mp hx with h | h
  · exact minPixelTile_le rest first x (Or.inl h)
  · exact minPixelTile_le rest first x (Or.inr h)

/-- C3 counterexample: for the stripe tile and an hFlip, the two calls of
`normalize` return different `NormalizedTile`s (their first-appearance
palettes differ), so normalization does not commute with flips as stated. -/
theorem normalize_flip_counterexample :
    (normalize RGBA_MAGENTA (flipTile true false stripeTile)).toOption ≠
      (normalize RGBA_MAGENTA stripeTile).toOption := by
  decide

/-- C3 amended: normalization commutes with flips up to the returned flip
flags and palette: when both calls succeed, the canonical 64-entry pixel
buffers agree: `normalize(flip_h_v(t)).pixels == normalize(t).pixels`. -/
theorem normalize_flip_pixels (tc : RGBA32) (hf vf : Bool) (t : RGBATile)
    (r r2 : NormalizedTile)
    (h1 : normalize tc t = Except.ok r)
    (h2 : normalize tc (flipTile hf vf t) = Except.ok r2) :
    r2.pixels = r.pixels := by
  obtain ⟨c0, hc0, hcase1⟩ := normalize_ok_cases tc t r h1
  obtain ⟨d0, hd0, hcase2⟩ := normalize_ok_cases tc (flipTile hf vf t) r2 h2
  have hcomp0 : candidate tc (flipTile hf vf t) false false =
      (candidate tc t hf vf).map
        (fun x => { x with hFlip := false, vFlip := false }) := by
    have := candidate_flip_comp tc t hf vf false false
    simpa using this
  rw [hcomp0] at hd0
  cases he0 : candidate tc t hf vf with
  | error e =>
    rw [he0] at hd0
    simp [Except.map] at hd0
  | ok e0 =>
    rw [he0] at hd0
    simp only [Except.map, Except.ok.injEq] at hd0
    have hd0pix : d0.pixels = e0.pixels := by rw [← hd0]
    have hd0tr : d0.transparent = e0.transparent := by
      rw [NormalizedTile.transparent, NormalizedTile.transparent, hd0pix]
    have htr_e0 : e0.transparent = c0.transparent :=
      candidate_transparent_flip tc t hf vf c0 e0 hc0 he0
    rcases hcase1 with ⟨ht1, hr1⟩ | ⟨ht1, c1, c2, c3, hc1, hc2, hc3, hr1⟩
    · rcases hcase2 with ⟨ht2, hr2⟩ | ⟨ht2, _, _, _, _, _, _, _⟩
      · subst hr1
        subst hr2
        have hl1 : r.pixels.length = 64 :=
          candidate_pixels_length tc t false false r hc0
        have hl2 : r2.pixels.length = 64 := by
          rw [hd0pix]
          exact candidate_pixels_length tc t hf vf e0 he0
        have he1 : r.pixels = List.replicate 64 0 := by
          rw [← hl1]
          apply List.eq_replicate_of_mem
          intro b hb
          have := List.all_eq_true.mp ht1 b hb
          simpa using this
        have he2 : r2.pixels = List.replicate 64 0 := by
          rw [← hl2]
          apply List.eq_replicate_of_mem
          intro b hb
          have := List.all_eq_true.mp ht2 b hb
          simpa using this
        rw [he1, he2]
      · rw [hd0tr, htr_e0] at ht2
        rw [ht1] at ht2
        exact absurd ht2 (by simp)
    · rcases hcase2 with ⟨ht2, hr2⟩ | ⟨ht2, d1, d2, d3, hd1m, hd2m, hd3m, hr2⟩
      · rw [hd0tr, htr_e0] at ht2
        rw [ht1] at ht2
        exact absurd ht2 (by simp)
      · -- non-transparent on both sides: both minima over pixel-equal sets
        have hd0m : candidate tc (flipTile hf vf t) false false =
            Except.ok d0 := by
          rw [hcomp0, he0]
          simp only [Except.map, Except.ok.injEq]
          exact hd0
        have hpickT : ∀ a b : Bool, candidate tc t a b =
            Except.ok (if a then (if b then c3 else c1)
                       else (if b then c2 else c0)) := by
          intro a b
          cases a <;> cases b <;> simpa
        have hpickD : ∀ a b : Bool, candidate tc (flipTile hf vf t) a b =
            Except.ok (if a then (if b then d3 else d1)
                       else (if b then d2 else d0)) := by
          intro a b
          cases a <;> cases b <;> simpa
        have hpixAB : ∀ a b : Bool,
            (if a then (if b then d3 else d1)
             else (if b then d2 else d0)).pixels =
            (if xor hf a then (if xor vf b then c3 else c1)
             else (if xor vf b then c2 else c0)).pixels := by
          intro a b
          have hcp := candidate_flip_comp tc t hf vf a b
          rw [hpickT (xor hf a) (xor vf b), hpickD a b] at hcp
          simp only [Except.map, Except.ok.injEq] at hcp
          rw [hcp]
        have hpixBA : ∀ a b : Bool,
            (if a then (if b then c3 else c1)
             else (if b then c2 else c0)).pixels =
            (if xor hf a then (if xor vf b then d3 else d1)
             else (if xor vf b then d2 else d0)).pixels := by
          intro a b
          have := hpixAB (xor hf a) (xor vf b)
          have hxa : xor hf (xor hf a) = a := by cases hf <;> cases a <;> rfl
          have hxb : xor vf (xor vf b) = b := by cases vf <;> cases b <;> rfl
          rw [hxa, hxb] at this
          exact this.symm
        subst hr1
        subst hr2
        -- r2's buffer is the buffer of a t-candidate, hence not below r
        have hr2notlt : lexLt (minPixelTile d0 [d1, d2, d3]).pixels
            (minPixelTile c0 [c1, c2, c3]).pixels = false := by
          rcases minPixelTile_mem [d1, d2, d3] d0 with hm | hm
          · have hthis := hpixAB false false
            simp at hthis
            rw [hm, hthis]
            apply minPixelTile_le_mem
            cases hf <;> cases vf <;> simp
          · simp only [List.mem_cons, List.not_mem_nil, or_false] at hm
            rcases hm with hm | hm | hm
            · have hthis := hpixAB true false
              simp at hthis
              rw [hm, hthis]
              apply minPixelTile_le_mem
              cases hf <;> cases vf <;> simp
            · have hthis := hpixAB false true
              simp at hthis
              rw [hm, hthis]
              apply minPixelTile_le_mem
              cases hf <;> cases vf <;> simp
            · have hthis := hpixAB true true
              simp at hthis
              rw [hm, hthis]
              apply minPixelTile_le_mem
              cases hf <;> cases vf <;> simp
        have hrnotlt : lexLt (minPixelTile c0 [c1, c2, c3]).pixels
            (minPixelTile d0 [d1, d2, d3]).pixels = false := by
          rcases minPixelTile_mem [c1, c2, c3] c0 with hm | hm
          · have hthis := hpixBA false false
            simp at hthis
            rw [hm, hthis]
            apply minPixelTile_le_mem
            cases hf <;> cases vf <;> simp
          · simp only [List.mem_cons, List.not_mem_nil, or_false] at hm
            rcases hm with hm | hm | hm
            · have hthis := hpixBA true false
              simp at hthis
              rw [hm, hthis]
              apply minPixelTile_le_mem
              cases hf <;> cases vf <;> simp
            · have hthis := hpixBA false true
              simp at hthis
              rw [hm, hthis]
              apply minPixelTile_le_mem
              cases hf <;> cases vf <;> simp
            · have hthis := hpixBA true true
              simp at hthis
              rw [hm, hthis]
              apply minPixelTile_le_mem
              cases hf <;> cases vf <;> simp
        exact lexLt_antisymm _ _ hr2notlt hrnotlt

/-- Witness for the amended C3 at the stripe tile with an hFlip. -/
theorem normalize_flip_pixels_witness :
    normalize RGBA_MAGENTA stripeTile = Except.ok stripeNormResult ∧
    (∃ r2, normalize RGBA_MAGENTA (flipTile true false stripeTile) =
      Except.ok r2 ∧ r2.pixels = stripeNormResult.pixels) := by
  have hok : normalize RGBA_MAGENTA stripeTile = Except.ok stripeNormResult :=
    except_ok_of_toOption _ _ (by decide)
  have hok2 : normalize RGBA_MAGENTA (flipTile true false stripeTile) =
      Except.ok ⟨stripeNormResult.pixels, ⟨[⟨31775⟩, ⟨31744⟩, ⟨31⟩]⟩,
        false, false⟩ :=
    except_ok_of_toOption _ _ (by decide)
  exact ⟨hok, ⟨_, hok2,
    normalize_flip_pixels RGBA_MAGENTA true false stripeTile stripeNormResult
      _ hok hok2⟩⟩

/-! Soundness of the palette assignment search (C1). -/

theorem subset_of_union_card_eq (p t : ColorSet)
    (h : (p ∪ t).card = p.card) : t ⊆ p := by
  have h1 : p ⊆ p ∪ t := Finset.subset_union_left
  have h2 : p = p ∪ t := Finset.eq_of_subset_of_card_le h1 (le_of_eq h)
  exact Finset.union_eq_left.mp h2.symm

theorem mem_set_or_eq_get {α : Type} (l : List α) (i : Nat) (hi : i < l.length)
    (v a : α) (ha : a ∈ l) : a ∈ l.set i v ∨ a = l.get ⟨i, hi⟩ := by
  obtain ⟨j, hj, hja⟩ := List.getElem_of_mem ha
  by_cases hji : j = i
  · subst hji
    right
    rw [← hja]
    simp [List.get_eq_getElem]
  · left
    rw [← hja]
    have hsetlen : j < (l.set i v).length := by simpa using hj
    have : (l.set i v).getD j a = l.getD j a := by
      rw [List.getD_eq_getElem _ _ hsetlen, List.getD_eq_getElem _ _ hj]
      exact List.getElem_set_ne (fun hE => hji hE.symm) hsetlen
    rw [List.getD_eq_getElem _ _ hsetlen, List.getD_eq_getElem _ _ hj] at this
    rw [← this]
    exact List.getElem_mem hsetlen

theorem assignPost_base (maxR cnt : Nat) (hw sol prim : List ColorSet) :
    assignPost hw [] prim sol (assign maxR cnt ⟨hw, []⟩ sol prim) := by
  intro cnt2 sol2 hres
  rw [assign] at hres
  by_cases hif : maxR < cnt + 1
  · rw [if_pos hif] at hres
    exact Option.noConfusion hres
  · rw [if_neg hif] at hres
    split at hres
    · simp only [Option.some.injEq, Prod.mk.injEq] at hres
      refine ⟨hw, hres.2.2.symm, rfl, ?_, ?_, ?_⟩
      · intro q hq
        exact ⟨q, hq, subset_rfl⟩
      · intro hc p hp
        exact hc p hp
      · intro u hu
        exact absurd hu (List.not_mem_nil u)
    · rename_i t heq
      simp at heq

theorem tryPrimary_post (maxR : Nat) (hw rest : List ColorSet)
    (toAssign : ColorSet) (sol prim : List ColorSet)
    (IH : ∀ cnt sol0, assignPost hw rest prim sol0
      (assign maxR cnt ⟨hw, rest⟩ sol0 prim)) :
    ∀ (remaining : List ColorSet), (∀ p ∈ remaining, p ∈ prim) →
    ∀ cnt, assignPost hw (toAssign :: rest) prim sol
      (tryPrimary maxR cnt hw rest toAssign sol prim remaining) := by
  intro remaining
  induction remaining with
  | nil =>
    intro _ cnt cnt2 sol2 hres
    rw [tryPrimary] at hres
    simp only [Option.some.injEq, Prod.mk.injEq] at hres
    exact absurd hres.2.1 (by simp)
  | cons p ps ihp =>
    intro hsub cnt cnt2 sol2 hres
    rw [tryPrimary] at hres
    by_cases hcov : (p ∪ toAssign).card = p.card
    · rw [if_pos hcov] at hres
      split at hres
      · exact Option.noConfusion hres
      · rename_i cnt3 sol3 heq
        simp only [Option.some.injEq, Prod.mk.injEq] at hres
        obtain ⟨P, hsol, hlen, hgrow, hcard, hcover⟩ :=
          IH cnt sol cnt3 sol3 heq
        refine ⟨P, ?_, hlen, hgrow, hcard, ?_⟩
        · rw [← hres.2.2]
          exact hsol
        · intro u hu
          rcases List.mem_cons.mp hu with hu | hu
          · subst hu
            exact Or.inr ⟨p, hsub p (List.mem_cons_self p ps),
              subset_of_union_card_eq p u hcov⟩
          · exact hcover u hu
      · rename_i cnt3 sol3 heq
        exact ihp (fun q hq => hsub q (List.mem_cons_of_mem p hq)) cnt3
          cnt2 sol2 hres
    · rw [if_neg hcov] at hres
      exact ihp (fun q hq => hsub q (List.mem_cons_of_mem p hq)) cnt
        cnt2 sol2 hres

theorem tryHardware_post (maxR : Nat) (S rest : List ColorSet)
    (toAssign : ColorSet) (sol prim : List ColorSet)
    (IH : ∀ (hw2 : List ColorSet) (cnt : Nat) (sol0 : List ColorSet),
      assignPost hw2 rest prim sol0 (assign maxR cnt ⟨hw2, rest⟩ sol0 prim)) :
    ∀ (k i cnt : Nat), S.length - i ≤ k →
      assignPost S (toAssign :: rest) prim sol
        (tryHardware maxR cnt S i rest toAssign sol prim) := by
  intro k
  induction k with
  | zero =>
    intro i cnt hk cnt2 sol2 hres
    rw [tryHardware] at hres
    by_cases hi : i < S.length
    · omega
    · rw [dif_neg hi] at hres
      simp only [Option.some.injEq, Prod.mk.injEq] at hres
      exact absurd hres.2.1 (by simp)
  | succ k ihk =>
    intro i cnt hk cnt2 sol2 hres
    rw [tryHardware] at hres
    by_cases hi : i < S.length
    · rw [dif_pos hi] at hres
      by_cases hfull : PAL_SIZE - 1 < (S.get ⟨i, hi⟩ ∪ toAssign).card
      · rw [if_pos hfull] at hres
        exact ihk (i + 1) cnt (by omega) cnt2 sol2 hres
      · rw [if_neg hfull] at hres
        split at hres
        · exact Option.noConfusion hres
        · rename_i cnt3 sol3 heq
          simp only [Option.some.injEq, Prod.mk.injEq] at hres
          obtain ⟨P, hsol, hlen, hgrow, hcard, hcover⟩ :=
            IH (S.set i (S.get ⟨i, hi⟩ ∪ toAssign)) cnt sol cnt3 sol3 heq
          have hvmem : S.get ⟨i, hi⟩ ∪ toAssign ∈
              S.set i (S.get ⟨i, hi⟩ ∪ toAssign) :=
            List.mem_set S i hi _
          refine ⟨P, ?_, ?_, ?_, ?_, ?_⟩
          · rw [← hres.2.2]
            exact hsol
          · rw [hlen]
            simp
          · intro q hq
            rcases mem_set_or_eq_get S i hi (S.get ⟨i, hi⟩ ∪ toAssign) q hq with
              hq2 | hq2
            · exact hgrow q hq2
            · obtain ⟨pp, hpp, hsub⟩ := hgrow _ hvmem
              refine ⟨pp, hpp, ?_⟩
              rw [hq2]
              exact subset_trans Finset.subset_union_left hsub
          · intro hc15
            apply hcard
            intro q hq
            rcases List.mem_or_eq_of_mem_set hq with hq2 | hq2
            · exact hc15 q hq2
            · rw [hq2]
              have : (S.get ⟨i, hi⟩ ∪ toAssign).card ≤ PAL_SIZE - 1 :=
                Nat.le_of_not_lt hfull
              simpa [PAL_SIZE] using this
          · intro u hu
            rcases List.mem_cons.mp hu with hu | hu
            · subst hu
              obtain ⟨pp, hpp, hsub⟩ := hgrow _ hvmem
              exact Or.inl ⟨pp, hpp,
                subset_trans Finset.subset_union_right hsub⟩
            · exact hcover u hu
        · rename_i cnt3 sol3 heq
          exact ihk (i + 1) cnt3 (by omega) cnt2 sol2 hres
    · rw [dif_neg hi] at hres
      simp only [Option.some.injEq, Prod.mk.injEq] at hres
      exact absurd hres.2.1 (by simp)

theorem assign_post : ∀ (n : Nat) (hw un : List ColorSet) (maxR cnt : Nat)
    (sol prim : List ColorSet), un.length ≤ n →
    assignPost hw un prim sol (assign maxR cnt ⟨hw, un⟩ sol prim) := by
  intro n
  induction n with
  | zero =>
    intro hw un maxR cnt sol prim hlen
    have hnil : un = [] := List.eq_nil_of_length_eq_zero (Nat.le_zero.mp hlen)
    subst hnil
    exact assignPost_base maxR cnt hw sol prim
  | succ n ihn =>
    intro hw un maxR cnt sol prim hlen
    intro cnt2 sol2 hres
    rw [assign] at hres
    by_cases hif : maxR < cnt + 1
    · rw [if_pos hif] at hres
      exact Option.noConfusion hres
    · rw [if_neg hif] at hres
      dsimp only at hres
      split at hres
      · -- empty unassigned
        rename_i heq
        have hnil : un = [] := by simpa using heq
        subst hnil
        simp only [Option.some.injEq, Prod.mk.injEq] at hres
        refine ⟨hw, hres.2.2.symm, rfl, ?_, ?_, ?_⟩
        · intro q hq
          exact ⟨q, hq, subset_rfl⟩
        · intro hc p hp
          exact hc p hp
        · intro u hu
          exact absurd hu (List.not_mem_nil u)
      · rename_i t heq
        have hne : un ≠ [] := by
          intro hE
          rw [hE] at heq
          simp at heq
        have hpos : 0 < un.length := List.length_pos.mpr hne
        have hrest : un.dropLast.length ≤ n := by
          rw [List.length_dropLast]
          omega
        have hsplitun : un.dropLast ++ [t] = un := by
          have hgl := List.getLast?_eq_getLast un hne
          rw [hgl] at heq
          injection heq with heq2
          rw [← heq2]
          exact List.dropLast_concat_getLast hne
        have hmemun : ∀ u, u ∈ un → u ∈ t :: un.dropLast := by
          intro u hu
          rw [← hsplitun] at hu
          rcases List.mem_append.mp hu with hu | hu
          · exact List.mem_cons_of_mem t hu
          · simp at hu
            rw [hu]
            exact List.mem_cons_self t un.dropLast
        split at hres
        · exact Option.noConfusion hres
        · rename_i cnt3 sol3 heq2
          simp only [Option.some.injEq, Prod.mk.injEq] at hres
          obtain ⟨P, hsol, hlen2, hgrow, hcard, hcover⟩ :=
            tryPrimary_post maxR hw un.dropLast t sol prim
              (fun cnt4 sol0 => ihn hw un.dropLast maxR cnt4 sol0 prim hrest)
              prim (fun p hp => hp) (cnt + 1) cnt3 sol3 heq2
          refine ⟨P, ?_, hlen2, hgrow, hcard, ?_⟩
          · rw [← hres.2.2]
            exact hsol
          · intro u hu
            exact hcover u (hmemun u hu)
        · rename_i cnt3 sol3 heq2
          have hperm := List.mergeSort_perm hw (fun a b => !(palSortLess t b a))
          obtain ⟨P, hsol, hlen2, hgrow, hcard, hcover⟩ :=
            tryHardware_post maxR
              (hw.mergeSort (fun a b => !(palSortLess t b a))) un.dropLast t
              sol prim
              (fun hw2 cnt4 sol0 => ihn hw2 un.dropLast maxR cnt4 sol0 prim hrest)
              (hw.mergeSort (fun a b => !(palSortLess t b a))).length 0 cnt3
              (by omega) cnt2 sol2 hres
          refine ⟨P, hsol, ?_, ?_, ?_, ?_⟩
          · rw [hlen2]
            exact hperm.length_eq
          · intro q hq
            exact hgrow q (hperm.mem_iff.mpr hq)
          · intro hc15
            apply hcard
            intro q hq
            exact hc15 q (hperm.mem_iff.mp hq)
          · intro u hu
            exact hcover u (hmemun u hu)

/-- C1: if `assign` is called in primary mode (no primary palettes) on `K`
empty hardware palettes and unassigned sets `U` of distinct color sets each
with at most 15 colors, an empty solution out-parameter, and returns true,
then the solution has length `K`, every `u ∈ U` is a subset of some
solution palette, and every solution palette has at most 15 colors. -/
theorem assign_primary_sound (U : List ColorSet) (K maxR cnt2 : Nat)
    (sol : List ColorSet)
    (hU15 : ∀ u ∈ U, u.card ≤ 15) (hUnodup : U.Nodup)
    (hrun : assign maxR 0 ⟨List.replicate K ∅, U⟩ [] [] =
      some (cnt2, true, sol)) :
    sol.length = K ∧ (∀ u ∈ U, ∃ p ∈ sol, u ⊆ p) ∧
      ∀ p ∈ sol, p.card ≤ 15 := by
  obtain ⟨P, hsol, hlen, _, hcard, hcover⟩ :=
    assign_post U.length (List.replicate K ∅) U maxR 0 [] []
      (Nat.le_refl U.length) cnt2 sol hrun
  simp only [List.nil_append] at hsol
  subst hsol
  refine ⟨?_, ?_, ?_⟩
  · rw [hlen]
    exact List.length_replicate K ∅
  · intro u hu
    rcases hcover u hu with h | ⟨q, hq, _⟩
    · exact h
    · exact absurd hq (List.not_mem_nil q)
  · apply hcard
    intro q hq
    have : q = ∅ := List.eq_of_mem_replicate hq
    rw [this]
    simp

/-- Witness for C1: one singleton color set fits into one empty palette. -/
theorem assign_primary_sound_witness :
    (∀ u ∈ [({0} : ColorSet)], u.card ≤ 15) ∧
    ([({0} : ColorSet)] : List ColorSet).Nodup ∧
    (assign 10 0 ⟨List.replicate 1 ∅, [({0} : ColorSet)]⟩ [] [] =
      some (2, true, [({0} : ColorSet)])) ∧
    (([({0} : ColorSet)] : List ColorSet).length = 1 ∧
      (∀ u ∈ [({0} : ColorSet)], ∃ p ∈ [({0} : ColorSet)], u ⊆ p) ∧
      ∀ p ∈ [({0} : ColorSet)], p.card ≤ 15) := by
  have hrun : assign 10 0 ⟨List.replicate 1 ∅, [({0} : ColorSet)]⟩ [] [] =
      some (2, true, [({0} : ColorSet)]) := by
    have hbase : assign 10 1 ⟨[({0} : ColorSet)], []⟩ [] [] =
        some (2, true, [({0} : ColorSet)]) := by
      rw [assign]
      simp +decide
    rw [assign]
    simp +decide [tryPrimary, tryHardware, hbase]
  refine ⟨?_, ?_, hrun, ?_⟩
  · intro u hu
    simp only [List.mem_singleton] at hu
    subst hu
    decide
  · simp
  · exact assign_primary_sound [{0}] 1 10 2 [{0}]
      (by
        intro u hu
        simp only [List.mem_singleton] at hu
        subst hu
        decide)
      (by simp) hrun

/-! Layer inference of the importer (C4, C10). -/

theorem importMetatile_dual (tc : RGBA32) (mt : Metatile) :
    importMetatile tc false mt =
      ((if metatileLayerBits tc mt = (true, true, true) then 1 else 0),
        specMetatileTiles tc mt) := by
  rcases hbits : metatileLayerBits tc mt with ⟨b, m, t⟩
  cases b <;> cases m <;> cases t <;>
    simp [importMetatile, specMetatileTiles, hbits, layerBitsetToLayerType,
      specLayerTable]

theorem importLayeredPass_acc (tc : RGBA32) (tl : Bool) :
    ∀ (mts : List Metatile) (acc : Nat × List (RGBATile × LayerType)),
    mts.foldl
      (fun acc mt =>
        let r := importMetatile tc tl mt
        (acc.1 + r.1, acc.2 ++ r.2)) acc =
      (acc.1 + (mts.map (fun mt => (importMetatile tc tl mt).1)).sum,
        acc.2 ++ mts.flatMap (fun mt => (importMetatile tc tl mt).2)) := by
  intro mts
  induction mts with
  | nil => intro acc; simp
  | cons mt mts ih =>
    intro acc
    rw [List.foldl_cons, ih]
    simp
    omega

theorem natList_sum_pos : ∀ (l : List Nat), 0 < l.sum ↔ ∃ x ∈ l, 0 < x := by
  intro l
  induction l with
  | nil => simp
  | cons x xs ih =>
    simp only [List.sum_cons, List.mem_cons]
    constructor
    · intro h
      by_cases hx : 0 < x
      · exact ⟨x, Or.inl rfl, hx⟩
      · have : 0 < xs.sum := by omega
        obtain ⟨y, hy, hypos⟩ := ih.mp this
        exact ⟨y, Or.inr hy, hypos⟩
    · rintro ⟨y, hy | hy, hypos⟩
      · omega
      · have := ih.mpr ⟨y, hy, hypos⟩
        omega

/-- C4: with triple-layer mode off, each metatile's layer type is computed
by OR-ing the per-position (bottom, middle, top) content bits and mapping
them exactly per the spec table (`layerBitsetToLayerType` agrees with
`specLayerTable` everywhere, reporting an error exactly on 111), and the
decompiled tileset receives each metatile's subtiles in the layer order
dictated by the inferred type. -/
theorem importLayered_dual_matches_table (tc : RGBA32) (mts : List Metatile) :
    (∀ bits, (layerBitsetToLayerType bits).1 = specLayerTable bits ∧
      ((layerBitsetToLayerType bits).2 = true ↔ bits = (true, true, true))) ∧
    (importLayeredPass tc false mts).2 = mts.flatMap (specMetatileTiles tc) := by
  constructor
  · intro bits
    rcases bits with ⟨b, m, t⟩
    cases b <;> cases m <;> cases t <;>
      simp [layerBitsetToLayerType, specLayerTable]
  · rw [importLayeredPass, importLayeredPass_acc]
    simp only [List.nil_append]
    have hfun : (fun mt => (importMetatile tc false mt).2) =
        specMetatileTiles tc := by
      funext mt
      rw [importMetatile_dual]
    rw [hfun]

/-- C10: a metatile with content on all three layers while dual-layer
inference is active does not abort the import: it is stamped TRIPLE and its
subtiles pushed in triple order (twelve of them when layers hold four
subtiles each), every other metatile is still imported in order, and
the import dies only after the whole pass, with the accumulated-error
message. -/
theorem importLayered_error_accumulation (tc : RGBA32) (mts : List Metatile)
    (hex : ∃ mt ∈ mts, metatileLayerBits tc mt = (true, true, true)) :
    importLayeredTiles tc false mts =
      Except.error "errors generated during layered tile import" ∧
    (importLayeredPass tc false mts).2 = mts.flatMap (specMetatileTiles tc) ∧
    ∀ mt ∈ mts, metatileLayerBits tc mt = (true, true, true) →
      specMetatileTiles tc mt =
        (mt.bottomTiles ++ mt.middleTiles ++ mt.topTiles).map
          (fun t2 => (t2, LayerType.triple)) := by
  have hpass := importLayeredPass_acc tc false mts (0, [])
  have hcount : (importLayeredPass tc false mts).1 =
      (mts.map (fun mt => (importMetatile tc false mt).1)).sum := by
    rw [importLayeredPass, hpass]
    simp
  refine ⟨?_, ?_, ?_⟩
  · rw [importLayeredTiles]
    have hpos : 0 < (importLayeredPass tc false mts).1 := by
      rw [hcount]
      rw [natList_sum_pos]
      obtain ⟨mt, hmt, hbits⟩ := hex
      refine ⟨1, ?_, by omega⟩
      rw [List.mem_map]
      refine ⟨mt, hmt, ?_⟩
      rw [importMetatile_dual, if_pos hbits]
    rw [if_pos hpos]
  · rw [importLayeredPass, hpass]
    simp only [List.nil_append]
    have hfun : (fun mt => (importMetatile tc false mt).2) =
        specMetatileTiles tc := by
      funext mt
      rw [importMetatile_dual]
    rw [hfun]
  · intro mt _ hbits
    rw [specMetatileTiles]
    simp only [hbits, specLayerTable]
    simp [List.map_append]

/-- Witness for C10: a bad metatile followed by a good one. -/
theorem importLayered_error_accumulation_witness :
    (∃ mt ∈ [badMetatile, goodMetatile],
      metatileLayerBits RGBA_MAGENTA mt = (true, true, true)) ∧
    (importLayeredTiles RGBA_MAGENTA false [badMetatile, goodMetatile] =
      Except.error "errors generated during layered tile import" ∧
    (importLayeredPass RGBA_MAGENTA false [badMetatile, goodMetatile]).2 =
      [badMetatile, goodMetatile].flatMap (specMetatileTiles RGBA_MAGENTA) ∧
    ∀ mt ∈ [badMetatile, goodMetatile],
      metatileLayerBits RGBA_MAGENTA mt = (true, true, true) →
      specMetatileTiles RGBA_MAGENTA mt =
        (mt.bottomTiles ++ mt.middleTiles ++ mt.topTiles).map
          (fun t2 => (t2, LayerType.triple))) := by
  have hex : ∃ mt ∈ [badMetatile, goodMetatile],
      metatileLayerBits RGBA_MAGENTA mt = (true, true, true) :=
    ⟨badMetatile, List.mem_cons_self badMetatile [goodMetatile], by decide⟩
  exact ⟨hex, importLayered_error_accumulation RGBA_MAGENTA
    [badMetatile, goodMetatile] hex⟩

/-- `head?` of a list is unchanged by appending on the right. -/
theorem head_of_append_right {α : Type} (l l2 : List α) (a : α)
    (h : l.head? = some a) : (l ++ l2).head? = some a := by
  cases l with
  | nil => simp at h
  | cons b t => simpa using h

/-- An invariant preserved by every `Except.ok` step of a `foldlM` holds of
any successful fold result. -/
theorem foldlM_except_invariant {σ α : Type} (f : σ → α → Except String σ)
    (P : σ → Prop) (hstep : ∀ s a s2, P s → f s a = Except.ok s2 → P s2) :
    ∀ (l : List α) (s s2 : σ), P s → l.foldlM f s = Except.ok s2 → P s2 := by
  intro l
  induction l with
  | nil =>
    intro s s2 hP h
    simp [List.foldlM_nil, Pure.pure, Except.pure] at h
    rwa [← h]
  | cons a t ih =>
    intro s s2 hP h
    rw [List.foldlM_cons] at h
    cases hf : f s a with
    | error e =>
      rw [hf] at h
      simp [Bind.bind, Except.bind] at h
    | ok s1 =>
      rw [hf] at h
      simp only [Bind.bind, Except.bind] at h
      exact ih s1 s2 (hstep s a s1 hP hf) h

/-- One primary-assignment step keeps the transparent tile at the head of
the sheet and palette 0 at the head of the palette list: a step either
leaves both lists alone or appends on the right. -/
theorem assignPrimaryStep_preserves_head (numTilesInPrimary : Nat)
    (palettes : List GBAPalette) (sol : List ColorSet)
    (st : TileAssignOut) (entry : Nat × NormalizedTile × ColorSet)
    (s2 : TileAssignOut)
    (hP : st.tiles.head? = some GBA_TILE_TRANSPARENT ∧
      st.paletteIndexesOfTile.head? = some 0)
    (h : assignPrimaryStep numTilesInPrimary palettes sol st entry =
      Except.ok s2) :
    s2.tiles.head? = some GBA_TILE_TRANSPARENT ∧
      s2.paletteIndexesOfTile.head? = some 0 := by
  unfold assignPrimaryStep at h
  dsimp only at h
  cases hfind : List.findIdx? (fun pal => decide (entry.2.2 \ pal = ∅)) sol with
  | none =>
    rw [hfind] at h
    exact absurd h (by simp)
  | some paletteIndex =>
    rw [hfind] at h
    dsimp only at h
    cases hmk : makeTile entry.2.1 (palettes.getD paletteIndex emptyGBAPalette) with
    | error e =>
      rw [hmk] at h
      simp [Bind.bind, Except.bind] at h
    | ok gbaTile =>
      rw [hmk] at h
      simp only [Bind.bind, Except.bind] at h
      cases hlook : lookupTileIndex st.tileIndexes gbaTile with
      | some tileIndex =>
        rw [hlook] at h
        dsimp only at h
        injection h with h2
        rw [← h2]
        exact hP
      | none =>
        rw [hlook] at h
        dsimp only at h
        by_cases hcap : numTilesInPrimary < st.tiles.length + 1
        · rw [if_pos hcap] at h
          exact absurd h (by simp)
        · rw [if_neg hcap] at h
          injection h with h2
          rw [← h2]
          exact ⟨head_of_append_right _ _ _ hP.1,
            head_of_append_right _ _ _ hP.2⟩

/-- **C5 (amended).** Every successful primary tile assignment has the
transparent tile at sheet index 0 on palette 0: the fold starts from that
state and every step preserves it. (The secondary assigner starts its
local sheet empty, so its index 0 is the first fresh tile; see the
counterexample.) -/
theorem assignTilesPrimary_transparent_head
    (numTilesInPrimary : Nat) (palettes : List GBAPalette)
    (indexed : List (Nat × NormalizedTile × ColorSet))
    (sol : List ColorSet) (numAssignments : Nat) (out : TileAssignOut)
    (h : assignTilesPrimary numTilesInPrimary palettes indexed sol
      numAssignments = Except.ok out) :
    out.tiles.head? = some GBA_TILE_TRANSPARENT ∧
      out.paletteIndexesOfTile.head? = some 0 := by
  unfold assignTilesPrimary at h
  exact foldlM_except_invariant _
    (fun st => st.tiles.head? = some GBA_TILE_TRANSPARENT ∧
      st.paletteIndexesOfTile.head? = some 0)
    (fun st entry s2 hP hstep =>
      assignPrimaryStep_preserves_head numTilesInPrimary palettes sol
        st entry s2 hP hstep)
    indexed _ out (by simp) h

/-- Counterexample to C5's "both primary and secondary" clause: a
successful secondary assignment whose sheet index 0 is an all-ones (red)
tile, not the transparent tile, because `assignTilesSecondary` starts the
local sheet empty. -/
theorem assignTilesSecondary_head_counterexample :
    (assignTilesSecondary 10 10 [secPalette] [(GBA_TILE_TRANSPARENT, 0)]
        [(0, secNormTile, ({0} : ColorSet))] [({0} : ColorSet)] [] 1).toOption.map
      (fun o => o.tiles.head?) = some (some ⟨List.replicate 64 1⟩) ∧
    (⟨List.replicate 64 1⟩ : GBATile) ≠ GBA_TILE_TRANSPARENT := by decide

/-- Witness for the amended C5 at a concrete one-tile primary run. -/
theorem assignTilesPrimary_transparent_head_witness :
    assignTilesPrimary 10 [secPalette] [(0, secNormTile, ({0} : ColorSet))]
      [({0} : ColorSet)] 1 = Except.ok primRunOut ∧
    (primRunOut.tiles.head? = some GBA_TILE_TRANSPARENT ∧
      primRunOut.paletteIndexesOfTile.head? = some 0) := by
  have h : assignTilesPrimary 10 [secPalette]
      [(0, secNormTile, ({0} : ColorSet))] [({0} : ColorSet)] 1 =
      Except.ok primRunOut :=
    except_ok_of_toOption _ _ (by decide)
  exact ⟨h, assignTilesPrimary_transparent_head 10 _ _ _ _ _ h⟩
/-- An invariant preserved by every step of a pure `foldl` holds of the
fold result. -/
theorem foldl_invariant {σ α : Type} (f : σ → α → σ) (P : σ → Prop)
    (hstep : ∀ s a, P s → P (f s a)) :
    ∀ (l : List α) (s : σ), P s → P (l.foldl f s) := by
  intro l
  induction l with
  | nil => intro s hP; exact hP
  | cons a t ih => intro s hP; rw [List.foldl_cons]; exact ih (f s a) (hstep s a hP)

/-- Seeding `buildColorIndexMaps` with distinct colors and distinct
indexes succeeds and produces the seed list and its entrywise swap. -/
theorem seedFold_ok (l : List (BGR15 × Nat)) :
    ∀ a1 : List (BGR15 × Nat),
      ((a1 ++ l).map Prod.fst).Nodup →
      ((a1 ++ l).map Prod.snd).Nodup →
      l.foldlM seedColorStep (a1, a1.map Prod.swap) =
        Except.ok (a1 ++ l, (a1 ++ l).map Prod.swap) := by
  induction l with
  | nil =>
    intro a1 _ _
    simp [List.foldlM_nil, Pure.pure, Except.pure]
  | cons ci t ih =>
    intro a1 hk hs
    rw [List.foldlM_cons]
    have hknotin : ci.1 ∉ a1.map Prod.fst := by
      intro hmem
      rw [List.map_append] at hk
      rcases List.nodup_append.mp hk with ⟨_, _, hdisj⟩
      exact hdisj hmem (by simp)
    have hsnotin : ci.2 ∉ a1.map Prod.snd := by
      intro hmem
      rw [List.map_append] at hs
      rcases List.nodup_append.mp hs with ⟨_, _, hdisj⟩
      exact hdisj hmem (by simp)
    have hfind1 : a1.find? (fun e => decide (e.1 = ci.1)) = none := by
      rw [List.find?_eq_none]
      intro e he
      simp only [decide_eq_true_eq]
      intro heq
      exact hknotin (heq ▸ List.mem_map_of_mem Prod.fst he)
    have hfind2 : (a1.map Prod.swap).find? (fun e => decide (e.1 = ci.2)) = none := by
      rw [List.find?_eq_none]
      intro e he
      simp only [decide_eq_true_eq]
      intro heq
      rcases List.mem_map.mp he with ⟨a, ha, hae⟩
      apply hsnotin
      rw [← heq, ← hae]
      exact List.mem_map_of_mem Prod.snd ha
    have hstep : seedColorStep (a1, a1.map Prod.swap) ci =
        Except.ok (a1 ++ [ci], (a1 ++ [ci]).map Prod.swap) := by
      unfold seedColorStep
      simp only [hfind1, hfind2, Option.isSome_none, Bool.false_eq_true,
        if_false, List.map_append]
      rfl
    rw [hstep]
    simp only [Bind.bind, Except.bind]
    have := ih (a1 ++ [ci])
      (by rwa [List.append_assoc, List.singleton_append])
      (by rwa [List.append_assoc, List.singleton_append])
    rw [List.append_assoc, List.singleton_append] at this
    exact this

/-- One fresh-color step preserves the fold invariant. -/
theorem freshColorStep_inv
    (s : (List (BGR15 × Nat) × List (Nat × BGR15)) × Nat) (c : BGR15)
    (h : cimInv s) : cimInv (freshColorStep s c) := by
  obtain ⟨⟨f, r⟩, n⟩ := s
  obtain ⟨h1, h2, h3, h4⟩ := h
  dsimp only at h1 h2 h3 h4
  unfold freshColorStep
  by_cases hc : (f.find? (fun e => decide (e.1 = c))).isSome = true
  · rw [if_pos hc]
    exact ⟨h1, h2, h3, h4⟩
  · rw [if_neg hc]
    have hnotin : c ∉ f.map Prod.fst := by
      intro hmem
      rcases List.mem_map.mp hmem with ⟨a, ha, hae⟩
      apply hc
      rw [List.find?_isSome]
      exact ⟨a, ha, by simp [hae]⟩
    unfold cimInv
    refine ⟨?_, ?_, ?_, ?_⟩ <;> dsimp only
    · simp only [List.map_append, List.map_cons, List.map_nil]
      rw [List.nodup_append]
      exact ⟨h1, List.nodup_singleton c, by
        intro x hx hx2
        simp only [List.mem_singleton] at hx2
        exact hnotin (hx2 ▸ hx)⟩
    · simp [h2]
    · simp only [List.map_append, List.map_cons, List.map_nil]
      rw [List.range_succ]
      exact h3.append_right [n]
    · rw [List.map_append, h4]
      simp [Prod.swap]

/-- The forward keys of the fresh-color fold are the first-appearance
deduplication of the scanned colors over the starting keys. -/
theorem freshFold_keys (cs : List BGR15) :
    ∀ s : (List (BGR15 × Nat) × List (Nat × BGR15)) × Nat,
      (cs.foldl freshColorStep s).1.1.map Prod.fst =
        cs.foldl (fun a c => if c ∈ a then a else a ++ [c])
          (s.1.1.map Prod.fst) := by
  induction cs with
  | nil => intro s; rfl
  | cons c t ih =>
    intro s
    rw [List.foldl_cons, List.foldl_cons, ih]
    congr 1
    unfold freshColorStep
    by_cases hc : c ∈ s.1.1.map Prod.fst
    · rcases List.mem_map.mp hc with ⟨a, ha, hae⟩
      have hfs : (s.1.1.find? (fun e => decide (e.1 = c))).isSome = true := by
        rw [List.find?_isSome]
        exact ⟨a, ha, by simp [hae]⟩
      simp [hfs, hc]
    · have hfs : (s.1.1.find? (fun e => decide (e.1 = c))).isSome = false := by
        rw [Bool.eq_false_iff]
        intro habs
        rw [List.find?_isSome] at habs
        rcases habs with ⟨a, ha, hae⟩
        simp only [decide_eq_true_eq] at hae
        exact hc (hae ▸ List.mem_map_of_mem Prod.fst ha)
      simp [hfs, hc]

/-- The forward keys of the whole per-tile fold are the first-appearance
deduplication of all scanned palette colors over the starting keys. -/
theorem tilesFold_keys (tiles : List (Nat × NormalizedTile)) :
    ∀ s : (List (BGR15 × Nat) × List (Nat × BGR15)) × Nat,
      ((tiles.foldl
          (fun acc it => (it.2.palette.colors.drop 1).foldl freshColorStep acc)
          s).1.1.map Prod.fst) =
        tiles.foldl
          (fun a it => (it.2.palette.colors.drop 1).foldl
            (fun a2 c => if c ∈ a2 then a2 else a2 ++ [c]) a)
          (s.1.1.map Prod.fst) := by
  induction tiles with
  | nil => intro s; rfl
  | cons it t ih =>
    intro s
    rw [List.foldl_cons, List.foldl_cons, ih, freshFold_keys]

/-- **C7 (amended).** With a well-formed primary seed (distinct colors,
indexes exactly `[0, seed.length)`), `buildColorIndexMaps` throws
"too many unique colors" exactly when the number of distinct colors —
primary seed plus fresh tile colors — exceeds `15 × numPalettesInPrimary`,
in primary and secondary mode alike (the secondary set gets no budget of
its own); on success the forward map has distinct colors, its indexes are
exactly `[0, distinct color count)`, and the reverse map is its entrywise
swapped inverse. -/
theorem buildColorIndexMaps_characterization (nPrim : Nat)
    (tiles : List (Nat × NormalizedTile)) (seed : List (BGR15 × Nat))
    (hkeys : (seed.map Prod.fst).Nodup)
    (hspan : (seed.map Prod.snd).Perm (List.range seed.length)) :
    (buildColorIndexMaps nPrim tiles seed =
        Except.error "too many unique colors" ↔
      (PAL_SIZE - 1) * nPrim < distinctColorCount tiles seed) ∧
    (∀ fwd rev, buildColorIndexMaps nPrim tiles seed = Except.ok (fwd, rev) →
      (fwd.map Prod.fst).Nodup ∧
      (fwd.map Prod.snd).Perm (List.range (distinctColorCount tiles seed)) ∧
      rev = fwd.map Prod.swap ∧
      fwd.length = distinctColorCount tiles seed) := by
  have hsnodup : (seed.map Prod.snd).Nodup :=
    hspan.nodup_iff.mpr (List.nodup_range _)
  have hseed : seed.foldlM seedColorStep
      (([] : List (BGR15 × Nat)), ([] : List (Nat × BGR15))) =
      Except.ok (seed, seed.map Prod.swap) := by
    have := seedFold_ok seed [] (by simpa) (by simpa)
    simpa using this
  have hbuild : buildColorIndexMaps nPrim tiles seed =
      if (PAL_SIZE - 1) * nPrim <
          (tiles.foldl
            (fun acc it => (it.2.palette.colors.drop 1).foldl freshColorStep acc)
            ((seed, seed.map Prod.swap), seed.length)).2 then
        Except.error "too many unique colors"
      else
        Except.ok (tiles.foldl
          (fun acc it => (it.2.palette.colors.drop 1).foldl freshColorStep acc)
          ((seed, seed.map Prod.swap), seed.length)).1 := by
    unfold buildColorIndexMaps
    rw [hseed]
    simp only [Bind.bind, Except.bind]
  set s2 := tiles.foldl
    (fun acc it => (it.2.palette.colors.drop 1).foldl freshColorStep acc)
    ((seed, seed.map Prod.swap), seed.length) with hs2
  have hinv : cimInv s2 := by
    rw [hs2]
    refine foldl_invariant _ cimInv ?_ tiles _ ⟨hkeys, rfl, hspan, rfl⟩
    intro s it hP
    exact foldl_invariant freshColorStep cimInv freshColorStep_inv _ s hP
  have hkeys2 : s2.1.1.map Prod.fst =
      tiles.foldl
        (fun a it => (it.2.palette.colors.drop 1).foldl
          (fun a2 c => if c ∈ a2 then a2 else a2 ++ [c]) a)
        (seed.map Prod.fst) := by
    rw [hs2]
    exact tilesFold_keys tiles ((seed, seed.map Prod.swap), seed.length)
  have hcount : s2.2 = distinctColorCount tiles seed := by
    rw [← hinv.2.1]
    unfold distinctColorCount
    rw [← hkeys2, List.length_map]
  by_cases hth : (PAL_SIZE - 1) * nPrim < s2.2
  · rw [hcount] at hth
    constructor
    · rw [hbuild, if_pos (hcount ▸ hth)]
      exact ⟨fun _ => hth, fun _ => rfl⟩
    · intro fwd rev hok
      rw [hbuild, if_pos (hcount ▸ hth)] at hok
      exact absurd hok (by simp)
  · constructor
    · rw [hbuild, if_neg hth]
      constructor
      · intro habs
        exact absurd habs (by simp)
      · intro hlt
        rw [← hcount] at hlt
        exact absurd hlt hth
    · intro fwd rev hok
      rw [hbuild, if_neg hth] at hok
      injection hok with hok2
      have hfwd : fwd = s2.1.1 := by rw [hok2]
      have hrev : rev = s2.1.2 := by rw [hok2]
      rw [hfwd, hrev]
      refine ⟨hinv.1, ?_, hinv.2.2.2, ?_⟩
      · rw [← hcount]
        exact hinv.2.2.1
      · rw [← hcount]
        exact hinv.2.1

/-- Counterexample to C7's secondary-budget clause: a secondary run
(nonempty primary seed) of 15 primary colors plus a single fresh secondary
color throws "too many unique colors", although its 16 distinct colors fit
the capacity available to a secondary set with two total palettes — the
threshold is `15 × numPalettesInPrimary` in both modes. -/
theorem buildColorIndexMaps_budget_counterexample :
    exceptView (buildColorIndexMaps 1 [(0, freshNormTile)] seedFifteen) =
      some "too many unique colors" ∧
    distinctColorCount [(0, freshNormTile)] seedFifteen = 16 ∧
    distinctColorCount [(0, freshNormTile)] seedFifteen ≤
      specSecondaryColorBudget 2 := by decide

/-- Witness for the amended C7 at a concrete primary-mode run: an empty
seed and one two-color tile. -/
theorem buildColorIndexMaps_characterization_witness :
    (buildColorIndexMaps 1 [(0, secNormTile)] [] =
        Except.error "too many unique colors" ↔
      (PAL_SIZE - 1) * 1 < distinctColorCount [(0, secNormTile)] []) ∧
    (∀ fwd rev, buildColorIndexMaps 1 [(0, secNormTile)] [] =
        Except.ok (fwd, rev) →
      (fwd.map Prod.fst).Nodup ∧
      (fwd.map Prod.snd).Perm
        (List.range (distinctColorCount [(0, secNormTile)] [])) ∧
      rev = fwd.map Prod.swap ∧
      fwd.length = distinctColorCount [(0, secNormTile)] []) :=
  buildColorIndexMaps_characterization 1 [(0, secNormTile)] []
    (by simp) (by simp)
/-- `getD` through a `set`: the new value inside bounds at the set index,
the old list everywhere else. -/
theorem getD_set_eq_ite {α : Type} (l : List α) (i j : Nat) (v d : α) :
    (l.set i v).getD j d = if i = j ∧ j < l.length then v else l.getD j d := by
  rw [List.getD_eq_getElem?_getD, List.getD_eq_getElem?_getD, List.getElem?_set]
  by_cases hij : i = j
  · subst hij
    by_cases hlen : i < l.length
    · simp [hlen]
    · rw [if_pos rfl, if_neg hlen, if_neg (by omega)]
      rw [List.getElem?_eq_none (by omega)]
  · rw [if_neg hij, if_neg (by omega)]

/-- Two lists of the same length agreeing at every `getD` are equal. -/
theorem eq_of_length_getD {α : Type} (l1 l2 : List α) (d : α)
    (hl : l1.length = l2.length)
    (h : ∀ j, l1.getD j d = l2.getD j d) : l1 = l2 := by
  apply List.ext_getElem hl
  intro i h1 h2
  have hi := h i
  rwa [List.getD_eq_getElem l1 d h1, List.getD_eq_getElem l2 d h2] at hi

/-- Folding `set` over `range m` (update at the loop index, reading the
current entry) keeps the length. -/
theorem foldl_range_set_length {α : Type} (g : Nat → α → α) (d : α) :
    ∀ (m : Nat) (init : List α),
      ((List.range m).foldl
        (fun ps i => ps.set i (g i (ps.getD i d))) init).length =
        init.length := by
  intro m
  induction m with
  | zero => intro init; rfl
  | succ m ih =>
    intro init
    rw [List.range_succ, List.foldl_append, List.foldl_cons, List.foldl_nil,
      List.length_set, ih]

/-- Pointwise view of folding `set` over `range m`: each index below `m`
is rewritten once from the initial entry, later indexes are untouched. -/
theorem foldl_range_set_getD {α : Type} (g : Nat → α → α) (d : α) :
    ∀ (m : Nat) (init : List α) (j : Nat),
      ((List.range m).foldl
        (fun ps i => ps.set i (g i (ps.getD i d))) init).getD j d =
      if j < m ∧ j < init.length then g j (init.getD j d)
      else init.getD j d := by
  intro m
  induction m with
  | zero =>
    intro init j
    rw [if_neg (by omega)]
    rfl
  | succ m ih =>
    intro init j
    rw [List.range_succ, List.foldl_append, List.foldl_cons, List.foldl_nil,
      getD_set_eq_ite, foldl_range_set_length]
    simp only [ih]
    by_cases h1 : m = j ∧ j < init.length
    · rw [if_pos h1, if_neg (by omega), if_pos (by omega)]
      rw [h1.1]
    · rw [if_neg h1]
      by_cases h2 : j < m ∧ j < init.length
      · rw [if_pos h2, if_pos (by omega)]
      · rw [if_neg h2, if_neg (by omega)]

/-- Offset variant of `foldl_range_set_length` for the materialization
loop, which writes at `off + k`. -/
theorem foldl_range_set_off_length {α : Type} (g : Nat → α → α) (d : α)
    (off : Nat) :
    ∀ (m : Nat) (init : List α),
      ((List.range m).foldl
        (fun ps k => ps.set (off + k) (g k (ps.getD (off + k) d)))
        init).length = init.length := by
  intro m
  induction m with
  | zero => intro init; rfl
  | succ m ih =>
    intro init
    rw [List.range_succ, List.foldl_append, List.foldl_cons, List.foldl_nil,
      List.length_set, ih]

/-- Offset variant of `foldl_range_set_getD`: indexes in
`[off, off + m)` are rewritten once from the initial entry, all others are
untouched. -/
theorem foldl_range_set_off_getD {α : Type} (g : Nat → α → α) (d : α)
    (off : Nat) :
    ∀ (m : Nat) (init : List α) (j : Nat),
      ((List.range m).foldl
        (fun ps k => ps.set (off + k) (g k (ps.getD (off + k) d)))
        init).getD j d =
      if off ≤ j ∧ j < off + m ∧ j < init.length then
        g (j - off) (init.getD j d)
      else init.getD j d := by
  intro m
  induction m with
  | zero =>
    intro init j
    rw [if_neg (by omega)]
    rfl
  | succ m ih =>
    intro init j
    rw [List.range_succ, List.foldl_append, List.foldl_cons, List.foldl_nil,
      getD_set_eq_ite, foldl_range_set_off_length]
    simp only [ih]
    by_cases h1 : off + m = j ∧ j < init.length
    · rw [if_pos h1, if_neg (by omega), if_pos (by omega)]
      have hjm : j - off = m := by omega
      rw [hjm, h1.1]
    · rw [if_neg h1]
      by_cases h2 : off ≤ j ∧ j < off + m ∧ j < init.length
      · rw [if_pos h2, if_pos (by omega)]
      · rw [if_neg h2, if_neg (by omega)]

/-- The slot-copy loop keeps the length of the updated list. -/
theorem foldl_range_setv_length {α : Type} (f : Nat → α) :
    ∀ (m : Nat) (init : List α),
      ((List.range m).foldl (fun ps i => ps.set i (f i)) init).length =
        init.length := by
  intro m
  induction m with
  | zero => intro init; rfl
  | succ m ih =>
    intro init
    rw [List.range_succ, List.foldl_append, List.foldl_cons, List.foldl_nil,
      List.length_set, ih]

/-- Pointwise view of the slot-copy loop: position `j` gets `f j` when
`j < m` and within bounds. -/
theorem foldl_range_setv_getD {α : Type} (f : Nat → α) (d : α) :
    ∀ (m : Nat) (init : List α) (j : Nat),
      ((List.range m).foldl (fun ps i => ps.set i (f i)) init).getD j d =
      if j < m ∧ j < init.length then f j else init.getD j d := by
  intro m
  induction m with
  | zero =>
    intro init j
    rw [if_neg (by omega)]
    rfl
  | succ m ih =>
    intro init j
    rw [List.range_succ, List.foldl_append, List.foldl_cons, List.foldl_nil,
      getD_set_eq_ite, foldl_range_setv_length]
    simp only [ih]
    by_cases h1 : m = j ∧ j < init.length
    · rw [if_pos h1, if_pos (by omega), h1.1]
    · rw [if_neg h1]
      by_cases h2 : j < m ∧ j < init.length
      · rw [if_pos h2, if_pos (by omega)]
      · rw [if_neg h2, if_neg (by omega)]

/-- Copying all 16 slots of a 16-slot source over a 16-slot base yields
the source: `copyPrimarySlots` is a bit-identical copy. -/
theorem copyPrimarySlots_eq (prim : List GBAPalette) (i : Nat)
    (p : GBAPalette) (hp : p.colors.length = PAL_SIZE)
    (hsrc : (prim.getD i emptyGBAPalette).colors.length = PAL_SIZE) :
    copyPrimarySlots prim i p = prim.getD i emptyGBAPalette := by
  unfold copyPrimarySlots
  have hcols : (List.range PAL_SIZE).foldl
      (fun cols j =>
        cols.set j ((prim.getD i emptyGBAPalette).colors.getD j ⟨0⟩))
      p.colors = (prim.getD i emptyGBAPalette).colors := by
    apply eq_of_length_getD _ _ (⟨0⟩ : BGR15)
    · rw [foldl_range_setv_length, hp, hsrc]
    · intro j
      rw [foldl_range_setv_getD]
      by_cases hj : j < PAL_SIZE
      · rw [if_pos ⟨hj, by omega⟩]
      · rw [if_neg (by omega)]
        rw [List.getD_eq_getElem?_getD, List.getD_eq_getElem?_getD,
          List.getElem?_eq_none (by omega), List.getElem?_eq_none (by omega)]
  rw [hcols]

/-- **C6.** The secondary palette phase: the result has
`numPalettesTotal` palettes; palettes `[0, numPalettesInPrimary)` are
bit-identical copies of the paired primary's palettes (given each primary
palette carries its 16 slots); palettes
`[numPalettesInPrimary, numPalettesTotal)` are the palette-assignment
solution materialized onto a fresh all-zero palette. -/
theorem buildCompiledPalettesSecondary_spec (tc : RGBA32)
    (prim : List GBAPalette) (i2c : Nat → BGR15) (sol : List ColorSet)
    (nPrim nTotal : Nat)
    (h16 : ∀ p ∈ prim, p.colors.length = PAL_SIZE) :
    (buildCompiledPalettesSecondary tc prim i2c sol nPrim nTotal).length =
      nTotal ∧
    (∀ i, i < nPrim → i < nTotal →
      (buildCompiledPalettesSecondary tc prim i2c sol nPrim nTotal).getD i
        emptyGBAPalette = prim.getD i emptyGBAPalette) ∧
    (∀ i, nPrim ≤ i → i < nTotal →
      (buildCompiledPalettesSecondary tc prim i2c sol nPrim nTotal).getD i
        emptyGBAPalette =
        materializeGBAPalette tc i2c (sol.getD (i - nPrim) ∅)
          emptyGBAPalette) := by
  have hsrc16 : ∀ i, (prim.getD i emptyGBAPalette).colors.length = PAL_SIZE := by
    intro i
    by_cases hi : i < prim.length
    · rw [List.getD_eq_getElem prim emptyGBAPalette hi]
      exact h16 _ (List.getElem_mem hi)
    · rw [List.getD_eq_getElem?_getD, List.getElem?_eq_none (by omega)]
      rfl
  unfold buildCompiledPalettesSecondary
  have hclen := foldl_range_set_length (copyPrimarySlots prim)
    emptyGBAPalette nPrim (List.replicate nTotal emptyGBAPalette)
  rw [List.length_replicate] at hclen
  have hcopy : ∀ j, ((List.range nPrim).foldl
      (fun ps i =>
        ps.set i (copyPrimarySlots prim i (ps.getD i emptyGBAPalette)))
      (List.replicate nTotal emptyGBAPalette)).getD j emptyGBAPalette =
      if j < nPrim ∧ j < nTotal then prim.getD j emptyGBAPalette
      else emptyGBAPalette := by
    intro j
    rw [foldl_range_set_getD (copyPrimarySlots prim) emptyGBAPalette nPrim
      (List.replicate nTotal emptyGBAPalette) j]
    rw [List.length_replicate]
    by_cases hj : j < nPrim ∧ j < nTotal
    · rw [if_pos hj, if_pos hj]
      have hrep : (List.replicate nTotal emptyGBAPalette).getD j
          emptyGBAPalette = emptyGBAPalette := by
        rw [List.getD_eq_getElem?_getD, List.getElem?_replicate, if_pos hj.2]
        rfl
      rw [hrep]
      exact copyPrimarySlots_eq prim j emptyGBAPalette rfl (hsrc16 j)
    · rw [if_neg hj, if_neg hj]
      rw [List.getD_eq_getElem?_getD]
      by_cases hjt : j < nTotal
      · rw [List.getElem?_replicate, if_pos hjt]
        rfl
      · rw [List.getElem?_eq_none (by simpa using hjt)]
        rfl
  refine ⟨?_, ?_, ?_⟩
  · rw [foldl_range_set_off_length
      (fun k v => materializeGBAPalette tc i2c (sol.getD k ∅) v)
      emptyGBAPalette nPrim (nTotal - nPrim), hclen]
  · intro i hi hit
    rw [foldl_range_set_off_getD
      (fun k v => materializeGBAPalette tc i2c (sol.getD k ∅) v)
      emptyGBAPalette nPrim (nTotal - nPrim), hclen]
    rw [if_neg (by omega)]
    rw [hcopy i, if_pos ⟨hi, hit⟩]
  · intro i hi hit
    rw [foldl_range_set_off_getD
      (fun k v => materializeGBAPalette tc i2c (sol.getD k ∅) v)
      emptyGBAPalette nPrim (nTotal - nPrim), hclen]
    rw [if_pos ⟨hi, by omega, hit⟩]
    rw [hcopy i, if_neg (by omega)]

/-- Witness for C6 at a one-primary, two-total concrete instance. -/
theorem buildCompiledPalettesSecondary_spec_witness :
    ((buildCompiledPalettesSecondary RGBA_MAGENTA [secPalette]
        (fun j => ⟨j⟩) [({0} : ColorSet)] 1 2).length = 2 ∧
    (∀ i, i < 1 → i < 2 →
      (buildCompiledPalettesSecondary RGBA_MAGENTA [secPalette]
        (fun j => ⟨j⟩) [({0} : ColorSet)] 1 2).getD i emptyGBAPalette =
        [secPalette].getD i emptyGBAPalette) ∧
    (∀ i, 1 ≤ i → i < 2 →
      (buildCompiledPalettesSecondary RGBA_MAGENTA [secPalette]
        (fun j => ⟨j⟩) [({0} : ColorSet)] 1 2).getD i emptyGBAPalette =
        materializeGBAPalette RGBA_MAGENTA (fun j => ⟨j⟩)
          ([({0} : ColorSet)].getD (i - 1) ∅) emptyGBAPalette)) :=
  buildCompiledPalettesSecondary_spec RGBA_MAGENTA [secPalette]
    (fun j => ⟨j⟩) [({0} : ColorSet)] 1 2
    (by intro p hp; simp only [List.mem_singleton] at hp; subst hp; decide)
end Porytiles
